import Mathlib

/-!
Verification development for the dynamic memory manager in
`src/Lab3-Memory/src/memmgr.c` (course memory lab).

The heap is modelled word-for-word: memory is a map from byte addresses to
64-bit words (every access in the C module is an 8-byte aligned word access
through the `PUT`/`GET` macros).  Machine integers are `Nat` with explicit
`% 2^64` at the points where the C code can wrap.  Each C function is
translated into a Lean function over an explicit allocator state `MM`;
the recursive search-and-grow loops are made total with an explicit fuel
argument (a model artifact; exhaustion is reported as `none` and never
occurs on the executions studied here).
-/

namespace MemMgr

/-- Word size of the heap: `TYPE_SIZE = sizeof(unsigned long) = 8`. -/
def TYPE_SIZE : Nat := 8

/-- Modulus of the 64-bit word type `TYPE = unsigned long`. -/
def WORD_MOD : Nat := 2 ^ 64

/-- Block allocated flag (`#define ALLOC 1`). -/
def ALLOC : Nat := 1

/-- Block free flag (`#define FREE 0`). -/
def FREE : Nat := 0

/-- Minimal block size (`#define BS 32`). -/
def BS : Nat := 32

/-- Minimal data segment allocation unit (`CHUNKSIZE = 1<<16`). -/
def CHUNKSIZE : Nat := 65536

/-- The C null pointer, address 0. -/
def NULL : Nat := 0

/-- `STATUS(v) = v & STATUS_MASK` with `STATUS_MASK = 0x7`: the low three
bits of a boundary tag.  For natural numbers `v & 7 = v % 8`. -/
def STATUS (v : Nat) : Nat := v % 8

/-- `SIZE(v) = v & SIZE_MASK` with `SIZE_MASK = ~0x7` on the 64-bit word
type: the tag truncated to 64 bits with its low three bits cleared,
arithmetically `v % 2^64 - v % 8`. -/
def SIZE (v : Nat) : Nat := v % WORD_MOD - v % 8

/-- `PACK(size,status) = (size) | (status)`: pack size and status into a
boundary tag. -/
def PACK (size status : Nat) : Nat := size ||| status

/-- Byte-addressed word memory: the value at address `a` is the 64-bit word
stored at `a` (all accesses in the module are 8-byte aligned). -/
def Mem : Type := Nat → Nat

/-- `PUT(p, v)`: write word `v` to address `p`; the store truncates to the
64-bit word type. -/
def PUT (m : Mem) (p v : Nat) : Mem := fun a => if a = p then v % WORD_MOD else m a

/-- `GET(p)`: read the word at address `p`. -/
def GET (m : Mem) (p : Nat) : Nat := m p

/-- `ALIGN(size) = (((size + 2*TYPE_SIZE - 1) >> 5) + 1) << 5`, computed in
the 64-bit type `size_t` (the addition and the final shift can wrap). -/
def ALIGN (size : Nat) : Nat :=
  ((((size + 2 * TYPE_SIZE - 1) % WORD_MOD) >>> 5 + 1) <<< 5) % WORD_MOD

/-- Free list management policy (`FreelistPolicy`). -/
inductive FreelistPolicy where
  | fp_Implicit
  | fp_Explicit
deriving DecidableEq, Repr

/-- Allocator state: the word memory plus the module's global variables.
`heap_start`/`heap_end` are the logical heap bounds; `brk_max` models the
data-segment provider: `ds_sbrk(CHUNKSIZE)` succeeds exactly when the new
break `heap_end + BS + CHUNKSIZE` stays within `brk_max` (the physical
break is always `heap_end + BS`). -/
structure MM where
  mem : Mem
  heap_start : Nat
  heap_end : Nat
  brk_max : Nat
  exp_freelist_head : Nat
  freelist_policy : FreelistPolicy

/-- `mm_init`: request one chunk, install the two sentinel half-blocks and
one free block spanning `CHUNKSIZE - 2*BS` bytes; under the explicit policy
that block becomes the sole free-list entry with null links.  `none` models
the `PANIC` when the provider refuses the first chunk. -/
def mm_init (ds_heap_start brk_max : Nat) (m0 : Mem) (fp : FreelistPolicy) :
    Option MM :=
  if brk_max < ds_heap_start + CHUNKSIZE then none
  else
    let hs := ds_heap_start + BS
    let he := ds_heap_start + CHUNKSIZE - BS
    let m1 := PUT m0 (hs - TYPE_SIZE) 0x1
    let m2 := PUT m1 he 0x1
    let size := CHUNKSIZE - 2 * BS
    let m3 := PUT m2 hs (PACK size FREE)
    let m4 := PUT m3 (hs + SIZE (GET m3 hs) - TYPE_SIZE) (PACK size FREE)
    if fp = .fp_Explicit then
      let m5 := PUT m4 (hs + TYPE_SIZE) NULL
      let m6 := PUT m5 (hs + 2 * TYPE_SIZE) NULL
      some ⟨m6, hs, he, brk_max, hs, fp⟩
    else
      some ⟨m4, hs, he, brk_max, NULL, fp⟩

/-- `mm_sbrk`: grow the data segment by one chunk, move the end sentinel,
and either fuse the new space with a free block ending at the old
`heap_end` or emit a fresh free block of `CHUNKSIZE` bytes there.  Under
the explicit policy the free list is not touched (faithful to the source).
`none` models the `-1` return when `ds_sbrk` fails. -/
def mm_sbrk (s : MM) : Option MM :=
  if s.brk_max < s.heap_end + BS + CHUNKSIZE then none
  else
    let old_heap_end := s.heap_end
    let heap_end' := s.heap_end + CHUNKSIZE
    let m1 := PUT s.mem heap_end' 0x1
    if STATUS (GET m1 (old_heap_end - TYPE_SIZE)) = FREE then
      let old_ftr := old_heap_end - TYPE_SIZE
      let new_size := SIZE (GET m1 old_ftr) + CHUNKSIZE
      let m2 := PUT m1 (old_ftr - SIZE (GET m1 old_ftr) + TYPE_SIZE) (PACK new_size FREE)
      let m3 := PUT m2 (heap_end' - TYPE_SIZE) (PACK new_size FREE)
      some { s with mem := m3, heap_end := heap_end' }
    else
      let m2 := PUT m1 old_heap_end (PACK CHUNKSIZE FREE)
      let m3 := PUT m2 (heap_end' - TYPE_SIZE) (PACK CHUNKSIZE FREE)
      some { s with mem := m3, heap_end := heap_end' }

/-- Loop body of `bf_get_free_block_implicit`: walk the blocks from `bp`
until a zero-size word (the end sentinel), tracking the best candidate
`best_fit` and its `smallest_diff`; an exact fit breaks out immediately.
`fuel` bounds the walk (model artifact; `none` = walk did not terminate
within `fuel` steps). -/
def bf_scan_implicit (m : Mem) (size : Nat) :
    Nat → Nat → Nat → Nat → Option Nat
  | 0, _, _, _ => none
  | fuel + 1, bp, best_fit, smallest_diff =>
    if SIZE (GET m bp) = 0 then some best_fit
    else
      let block_size := SIZE (GET m bp)
      if STATUS (GET m bp) = FREE ∧ size ≤ block_size then
        let diff := block_size - size
        if diff = 0 then some bp
        else if diff < smallest_diff then
          bf_scan_implicit m size fuel (bp + block_size) bp diff
        else
          bf_scan_implicit m size fuel (bp + block_size) best_fit smallest_diff
      else bf_scan_implicit m size fuel (bp + block_size) best_fit smallest_diff

/-- Loop body of `bf_get_free_block_explicit`: walk the free list from
`bp` following the `next` pointers stored in the first payload word of
each free block, with the same best-fit bookkeeping as the implicit
scan. -/
def bf_scan_explicit (m : Mem) (size : Nat) :
    Nat → Nat → Nat → Nat → Option Nat
  | 0, _, _, _ => none
  | fuel + 1, bp, best_fit, smallest_diff =>
    if bp = NULL then some best_fit
    else
      let current_size := SIZE (GET m bp)
      if STATUS (GET m bp) = FREE ∧ size ≤ current_size then
        let diff := current_size - size
        if diff = 0 then some bp
        else if diff < smallest_diff then
          bf_scan_explicit m size fuel (GET m (bp + TYPE_SIZE)) bp diff
        else
          bf_scan_explicit m size fuel (GET m (bp + TYPE_SIZE)) best_fit smallest_diff
      else bf_scan_explicit m size fuel (GET m (bp + TYPE_SIZE)) best_fit smallest_diff

/-- Scan fuel: one step per 8 bytes of heap never runs out on a
well-formed heap (block sizes are at least 32). -/
def scan_fuel (s : MM) : Nat := (s.heap_end - s.heap_start) / 8 + 2

/-- `bf_get_free_block_implicit`: scan all blocks; on a miss grow the heap
with `mm_sbrk` and retry recursively; `NULL` is returned only when
`mm_sbrk` fails.  The outer fuel bounds the number of retries (model
artifact). -/
def bf_get_free_block_implicit (s : MM) (size : Nat) :
    Nat → Option (Option Nat × MM)
  | 0 => none
  | rfuel + 1 =>
    match bf_scan_implicit s.mem size (scan_fuel s) s.heap_start NULL (WORD_MOD - 1) with
    | none => none
    | some best_fit =>
      if best_fit = NULL then
        match mm_sbrk s with
        | none => some (none, s)
        | some s' => bf_get_free_block_implicit s' size rfuel
      else some (some best_fit, s)

/-- `bf_get_free_block_explicit`: scan the free list; on a miss grow the
heap with `mm_sbrk` and retry recursively, as in the implicit search. -/
def bf_get_free_block_explicit (s : MM) (size : Nat) :
    Nat → Option (Option Nat × MM)
  | 0 => none
  | rfuel + 1 =>
    match bf_scan_explicit s.mem size (scan_fuel s) s.exp_freelist_head NULL (WORD_MOD - 1) with
    | none => none
    | some best_fit =>
      if best_fit = NULL then
        match mm_sbrk s with
        | none => some (none, s)
        | some s' => bf_get_free_block_explicit s' size rfuel
      else some (some best_fit, s)

/-- Retry fuel for the search-and-grow loop: each successful `mm_sbrk`
consumes one chunk of provider headroom, so this bound is never reached. -/
def retry_fuel (s : MM) : Nat := (s.brk_max - s.heap_end) / CHUNKSIZE + 2

/-- Policy dispatch `get_free_block` (the function pointer set by
`mm_init`). -/
def get_free_block (s : MM) (size : Nat) : Option (Option Nat × MM) :=
  match s.freelist_policy with
  | .fp_Implicit => bf_get_free_block_implicit s size (retry_fuel s)
  | .fp_Explicit => bf_get_free_block_explicit s size (retry_fuel s)

/-- `free_from_free_list`: unlink block `bp` from the doubly-linked free
list (head pointer, neighbour links) and clear its own link words. -/
def free_from_free_list (s : MM) (bp : Nat) : MM :=
  let next_bp := GET s.mem (bp + TYPE_SIZE)
  let prev_bp := GET s.mem (bp + 2 * TYPE_SIZE)
  let head' := if bp = s.exp_freelist_head then next_bp else s.exp_freelist_head
  let m1 := if prev_bp ≠ NULL then PUT s.mem (prev_bp + TYPE_SIZE) next_bp else s.mem
  let m2 := if next_bp ≠ NULL then PUT m1 (next_bp + 2 * TYPE_SIZE) prev_bp else m1
  let m3 := PUT m2 (bp + TYPE_SIZE) NULL
  let m4 := PUT m3 (bp + 2 * TYPE_SIZE) NULL
  { s with mem := m4, exp_freelist_head := head' }

/-- `add_to_free_list`: push block `bp` on the front of the free list. -/
def add_to_free_list (s : MM) (bp : Nat) : MM :=
  let old_head := s.exp_freelist_head
  let m1 := PUT s.mem (bp + TYPE_SIZE) old_head
  let m2 := PUT m1 (bp + 2 * TYPE_SIZE) NULL
  let m3 := if s.exp_freelist_head ≠ NULL then PUT m2 (old_head + 2 * TYPE_SIZE) bp else m2
  { s with mem := m3, exp_freelist_head := bp }

/-- `split` (explicit policy): after the header of `bp` has been rewritten
to the allocated part's size, replace the free-list node `bp` by the
remainder block `NEXT_BLKP(bp)` in place. -/
def split (s : MM) (bp : Nat) : MM :=
  let next_ptr := GET s.mem (bp + TYPE_SIZE)
  let prev_ptr := GET s.mem (bp + 2 * TYPE_SIZE)
  let new_bp := bp + SIZE (GET s.mem bp)
  let s1 :=
    if prev_ptr = NULL then { s with exp_freelist_head := new_bp }
    else { s with mem := PUT s.mem (prev_ptr + TYPE_SIZE) new_bp }
  let m2 := if next_ptr ≠ NULL then PUT s1.mem (next_ptr + 2 * TYPE_SIZE) new_bp else s1.mem
  let m3 := PUT m2 (new_bp + TYPE_SIZE) next_ptr
  let m4 := PUT m3 (new_bp + 2 * TYPE_SIZE) prev_ptr
  { s1 with mem := m4 }

/-- `mm_malloc`: compute the adjusted block size, find a free block, then
split it or allocate it in place; `Except.error` is the `PANIC("Payload
Alignment error")` exit.  `(block_size - adjusted_size) != 0` on 64-bit
operands is inequality of the two numbers. -/
def mm_malloc (s : MM) (size : Nat) : Option (Except String (Option Nat × MM)) :=
  if size = 0 then some (.ok (none, s))
  else
    let adjusted_size0 := ALIGN size
    let adjusted_size := if adjusted_size0 < BS then BS else adjusted_size0
    match get_free_block s adjusted_size with
    | none => none
    | some (none, s') => some (.ok (none, s'))
    | some (some bp, s') =>
      let block_size := SIZE (GET s'.mem bp)
      if adjusted_size + BS ≤ block_size then
        let remaining_size := block_size - adjusted_size
        let m1 := PUT s'.mem bp (PACK adjusted_size ALLOC)
        let m2 := PUT m1 (bp + SIZE (GET m1 bp) - TYPE_SIZE) (PACK adjusted_size ALLOC)
        let next_bp := bp + SIZE (GET m2 bp)
        let m3 := PUT m2 next_bp (PACK remaining_size FREE)
        let m4 := PUT m3 (next_bp + SIZE (GET m3 next_bp) - TYPE_SIZE) (PACK remaining_size FREE)
        let s2 := { s' with mem := m4 }
        let s3 := if s2.freelist_policy = .fp_Explicit then split s2 bp else s2
        some (.ok (some (bp + TYPE_SIZE), s3))
      else if block_size ≠ adjusted_size then
        some (.error "Payload Alignment error")
      else
        let m1 := PUT s'.mem bp (PACK block_size ALLOC)
        let m2 := PUT m1 (bp + SIZE (GET m1 bp) - TYPE_SIZE) (PACK block_size ALLOC)
        let s2 := { s' with mem := m2 }
        let s3 := if s2.freelist_policy = .fp_Explicit then free_from_free_list s2 bp else s2
        some (.ok (some (bp + TYPE_SIZE), s3))

/-- `imp_coalesce`: four-case merge of `bp` with its free neighbours,
then write the merged header and footer with status free.  Returns the
new header address. -/
def imp_coalesce (s : MM) (bp : Nat) : MM × Nat :=
  let m := s.mem
  let prev_blk := bp - SIZE (GET m (bp - TYPE_SIZE))
  let next_blk := bp + SIZE (GET m bp)
  let prev_alloc := STATUS (GET m prev_blk) = ALLOC
  let next_alloc := STATUS (GET m next_blk) = ALLOC
  let size := SIZE (GET m bp)
  let nh :=
    if prev_alloc ∧ next_alloc then (bp, size)
    else if ¬prev_alloc ∧ next_alloc then (prev_blk, size + SIZE (GET m prev_blk))
    else if prev_alloc ∧ ¬next_alloc then (bp, size + SIZE (GET m next_blk))
    else (prev_blk, size + SIZE (GET m prev_blk) + SIZE (GET m next_blk))
  let m1 := PUT m nh.1 (PACK nh.2 FREE)
  let m2 := PUT m1 (nh.1 + SIZE (GET m1 nh.1) - TYPE_SIZE) (PACK nh.2 FREE)
  ({ s with mem := m2 }, nh.1)

/-- `exp_coalesce`: as `imp_coalesce`, but each absorbed free neighbour is
first unlinked from the free list; the merged header/footer are written
inside each merge case and once more after the case split (as in the
source). -/
def exp_coalesce (s : MM) (bp : Nat) : MM × Nat :=
  let m := s.mem
  let prev_blk := bp - SIZE (GET m (bp - TYPE_SIZE))
  let next_blk := bp + SIZE (GET m bp)
  let prev_alloc := STATUS (GET m prev_blk) = ALLOC
  let next_alloc := STATUS (GET m next_blk) = ALLOC
  let size := SIZE (GET m bp)
  let r :=
    if prev_alloc ∧ next_alloc then (s, bp, size)
    else if ¬prev_alloc ∧ next_alloc then
      let s1 := free_from_free_list s prev_blk
      let size2 := size + SIZE (GET s1.mem prev_blk)
      let m1 := PUT s1.mem prev_blk (PACK size2 FREE)
      let m2 := PUT m1 (prev_blk + SIZE (GET m1 prev_blk) - TYPE_SIZE) (PACK size2 FREE)
      ({ s1 with mem := m2 }, prev_blk, size2)
    else if prev_alloc ∧ ¬next_alloc then
      let s1 := free_from_free_list s next_blk
      let size2 := size + SIZE (GET s1.mem next_blk)
      let m1 := PUT s1.mem bp (PACK size2 FREE)
      let m2 := PUT m1 (bp + SIZE (GET m1 bp) - TYPE_SIZE) (PACK size2 FREE)
      ({ s1 with mem := m2 }, bp, size2)
    else
      let s1 := free_from_free_list s prev_blk
      let s2 := free_from_free_list s1 next_blk
      let size2 := size + SIZE (GET s2.mem prev_blk) + SIZE (GET s2.mem next_blk)
      let m1 := PUT s2.mem prev_blk (PACK size2 FREE)
      let m2 := PUT m1 (prev_blk + SIZE (GET m1 prev_blk) - TYPE_SIZE) (PACK size2 FREE)
      ({ s2 with mem := m2 }, prev_blk, size2)
  let sfin := r.1
  let new_hdr := r.2.1
  let size' := r.2.2
  let m1 := PUT sfin.mem new_hdr (PACK size' FREE)
  let m2 := PUT m1 (new_hdr + SIZE (GET m1 new_hdr) - TYPE_SIZE) (PACK size' FREE)
  ({ sfin with mem := m2 }, new_hdr)

/-- `mm_free`: null is a no-op; a tag already marked free at `ptr - 8`
aborts with the double-free `PANIC`; otherwise coalesce (and, explicit
policy, push the merged block on the free list). -/
def mm_free (s : MM) (ptr : Nat) : Except String MM :=
  if ptr = NULL then .ok s
  else
    let bp := ptr - TYPE_SIZE
    if STATUS (GET s.mem bp) = FREE then .error "Double free detected"
    else if s.freelist_policy = .fp_Implicit then .ok (imp_coalesce s bp).1
    else
      let r := exp_coalesce s bp
      .ok (add_to_free_list r.1 r.2)

/-- Word-granular `memcpy(dst, src, n)`: copy `n / 8` words read from the
pre-copy memory.  Every copy in this module has `n` a multiple of 8 on a
well-formed heap, so no partial word is lost. -/
def memcpyWords (m : Mem) (dst src n : Nat) : Mem :=
  (List.range (n / 8)).foldl (fun acc i => PUT acc (dst + 8 * i) (GET m (src + 8 * i))) m

/-- Word-granular `memset(dst, 0, n)`: zero `n / 8` words. -/
def memsetWords (m : Mem) (dst n : Nat) : Mem :=
  (List.range (n / 8)).foldl (fun acc i => PUT acc (dst + 8 * i) 0) m

/-- `mm_realloc`: shrink in place (with split and coalesce of the
remainder), grow into a free next block, or relocate.  The relocation path
is translated verbatim: it copies `block_size - 2*TYPE_SIZE` bytes starting
at `cur` (the header address) and then calls `mm_free(cur)` on the header
address. -/
def mm_realloc (s : MM) (ptr size : Nat) : Option (Except String (Option Nat × MM)) :=
  if ptr = NULL then mm_malloc s size
  else if size = 0 then
    match mm_free s ptr with
    | .error e => some (.error e)
    | .ok s' => some (.ok (none, s'))
  else
    let cur := ptr - TYPE_SIZE
    let m := s.mem
    let next_blk := cur + SIZE (GET m cur)
    let block_size := SIZE (GET m cur)
    let new_size0 := ALIGN size
    let new_size := if new_size0 < BS then BS else new_size0
    let next_size := SIZE (GET m next_blk)
    let total_size := block_size + next_size
    let next_free := STATUS (GET m next_blk) = FREE
    if new_size + BS ≤ block_size then
      let remaining_size := block_size - new_size
      let m1 := PUT m cur (PACK new_size ALLOC)
      let m2 := PUT m1 (cur + SIZE (GET m1 cur) - TYPE_SIZE) (PACK new_size ALLOC)
      let splitted_bp := cur + SIZE (GET m2 cur)
      let m3 := PUT m2 splitted_bp (PACK remaining_size FREE)
      let m4 := PUT m3 (splitted_bp + SIZE (GET m3 splitted_bp) - TYPE_SIZE) (PACK remaining_size FREE)
      let s1 := { s with mem := m4 }
      if s.freelist_policy = .fp_Implicit then
        some (.ok (some ptr, (imp_coalesce s1 splitted_bp).1))
      else
        let r := exp_coalesce s1 splitted_bp
        some (.ok (some ptr, add_to_free_list r.1 splitted_bp))
    else if new_size ≤ block_size then
      let m1 := PUT m cur (PACK new_size ALLOC)
      let m2 := PUT m1 (cur + SIZE (GET m1 cur) - TYPE_SIZE) (PACK new_size ALLOC)
      some (.ok (some ptr, { s with mem := m2 }))
    else if next_free ∧ new_size ≤ total_size then
      let s0 := if s.freelist_policy = .fp_Explicit then free_from_free_list s next_blk else s
      if new_size + BS ≤ total_size then
        let remaining_size := total_size - new_size
        let m1 := PUT s0.mem cur (PACK new_size ALLOC)
        let m2 := PUT m1 (cur + SIZE (GET m1 cur) - TYPE_SIZE) (PACK new_size ALLOC)
        let splitted_bp := cur + SIZE (GET m2 cur)
        let m3 := PUT m2 splitted_bp (PACK remaining_size FREE)
        let m4 := PUT m3 (splitted_bp + SIZE (GET m3 splitted_bp) - TYPE_SIZE) (PACK remaining_size FREE)
        let s1 := { s0 with mem := m4 }
        let s2 := if s.freelist_policy = .fp_Explicit then add_to_free_list s1 splitted_bp else s1
        some (.ok (some ptr, s2))
      else
        let m1 := PUT s0.mem cur (PACK new_size ALLOC)
        let m2 := PUT m1 (cur + SIZE (GET m1 cur) - TYPE_SIZE) (PACK new_size ALLOC)
        some (.ok (some ptr, { s0 with mem := m2 }))
    else
      match mm_malloc s size with
      | none => none
      | some (.error e) => some (.error e)
      | some (.ok (none, s')) => some (.ok (none, s'))
      | some (.ok (some return_ptr, s')) =>
        let m' := memcpyWords s'.mem return_ptr cur (block_size - 2 * TYPE_SIZE)
        let s2 := { s' with mem := m' }
        match mm_free s2 cur with
        | .error e => some (.error e)
        | .ok s3 => some (.ok (some return_ptr, s3))

/-- `mm_calloc(nmemb, size)`: `mm_malloc(nmemb * size)` followed by
`memset(payload, 0, nmemb * size)`; the product is computed in the 64-bit
type `size_t` and therefore reduced modulo `2^64`. -/
def mm_calloc (s : MM) (nmemb size : Nat) : Option (Except String (Option Nat × MM)) :=
  match mm_malloc s ((nmemb * size) % WORD_MOD) with
  | none => none
  | some (.error e) => some (.error e)
  | some (.ok (none, s')) => some (.ok (none, s'))
  | some (.ok (some payload, s')) =>
    some (.ok (some payload,
      { s' with mem := memsetWords s'.mem payload ((nmemb * size) % WORD_MOD) }))

/-! ## Heap parsing and the invariants of spec section 8 -/

/-- Parse the boundary-tag block sequence of the region `[a, e)`: the list
of `(header address, header word)` pairs obtained by repeatedly stepping
`a + SIZE(header)`, as the traversal in `mm_check` does.  The parse fails
(`none`) if a step has size zero, overshoots `e`, or `fuel` runs out;
success means the block sizes tile the region exactly (invariant I1). -/
def parse (m : Mem) : Nat → Nat → Nat → Option (List (Nat × Nat))
  | 0, _, _ => none
  | fuel + 1, a, e =>
    if a = e then some []
    else if e < a then none
    else
      let w := GET m a
      if SIZE w = 0 then none
      else
        match parse m fuel (a + SIZE w) e with
        | none => none
        | some L => some ((a, w) :: L)

/-- Parse the whole usable region of a state. -/
def parseHeap (s : MM) : Option (List (Nat × Nat)) :=
  parse s.mem ((s.heap_end - s.heap_start) / 8 + 1) s.heap_start s.heap_end

/-- Invariant I2: the footer word of every block equals its header word. -/
def I2 (m : Mem) (L : List (Nat × Nat)) : Prop :=
  ∀ b ∈ L, GET m (b.1 + SIZE b.2 - TYPE_SIZE) = b.2

/-- Invariant I3: no two consecutive blocks are both free. -/
def I3 : List (Nat × Nat) → Prop
  | [] => True
  | [_] => True
  | x :: y :: L => ¬(STATUS x.2 = FREE ∧ STATUS y.2 = FREE) ∧ I3 (y :: L)

/-- Invariant I4: every block size is a positive multiple of 32. -/
def I4 (L : List (Nat × Nat)) : Prop :=
  ∀ b ∈ L, 32 ∣ SIZE b.2 ∧ 0 < SIZE b.2

/-- Walk the explicit free list following `next` pointers; `fuel` bounds
the walk (a well-formed list is shorter than the block count). -/
def chainList (m : Mem) : Nat → Nat → List Nat
  | 0, _ => []
  | fuel + 1, hd => if hd = NULL then [] else hd :: chainList m fuel (GET m (hd + TYPE_SIZE))

/-- The next-pointer chain starting at `hd` passes exactly through the
addresses of `C` and ends at `NULL`. -/
def chain (m : Mem) : Nat → List Nat → Prop
  | hd, [] => hd = NULL
  | hd, a :: rest => hd = a ∧ chain m (GET m (a + TYPE_SIZE)) rest

/-- Well-formed heap: the region parses (I1), the footers match (I2), no
two adjacent free blocks (I3), sizes are positive multiples of 32 (I4),
the end sentinel stops the implicit scan, and the heap lies above address
0 at 32-byte aligned bounds. -/
def Inv (s : MM) (L : List (Nat × Nat)) : Prop :=
  parseHeap s = some L ∧ I2 s.mem L ∧ I3 L ∧ I4 L ∧
    SIZE (GET s.mem s.heap_end) = 0 ∧ 0 < s.heap_start

/-- Weak free-list invariant I5w (explicit policy): some list `C` realises
the next-pointer chain, and every chain member is a free block of the
heap.  (The converse inclusion is the full invariant I5; the source's
`mm_sbrk` does not maintain it.) -/
def I5w (s : MM) (L : List (Nat × Nat)) : Prop :=
  ∃ C, chain s.mem s.exp_freelist_head C ∧
    ∀ a ∈ C, ∃ w, (a, w) ∈ L ∧ STATUS w = FREE

/-! ## Concrete heap states used as failing inputs and witnesses -/

/-- Build a memory from an address/value association list over a zero
background. -/
def ofPairs (ps : List (Nat × Nat)) : Mem :=
  ps.foldl (fun m pv => PUT m pv.1 pv.2) (fun _ => 0)

/-- Implicit-policy heap `[P alloc 32][A alloc 32][C alloc 32][R free 65376]`
with zeroed payloads, one chunk of data segment (`heap_start = 32`,
`heap_end = 65504`), provider cap at 4 chunks. -/
def s_c2 : MM :=
  ⟨ofPairs [(24, 1), (32, 33), (56, 33), (64, 33), (88, 33), (96, 33), (120, 33),
            (128, 65376), (65496, 65376), (65504, 1)],
   32, 65504, 262144, NULL, .fp_Implicit⟩

/-- Implicit-policy heap `[A alloc 32][C alloc 32][R free 65408]` where the
payload of `A` holds the words 111 and 222. -/
def s_c3 : MM :=
  ⟨ofPairs [(24, 1), (32, 33), (40, 111), (48, 222), (56, 33), (64, 33), (88, 33),
            (96, 65408), (65496, 65408), (65504, 1)],
   32, 65504, 262144, NULL, .fp_Implicit⟩

/-- Explicit-policy heap with a single allocated block `[B alloc 65472]`
and an empty free list. -/
def s_c4 : MM :=
  ⟨ofPairs [(24, 1), (32, 65473), (65496, 65473), (65504, 1)],
   32, 65504, 262144, NULL, .fp_Explicit⟩

/-- Implicit-policy heap with a single allocated block `[B alloc 65472]`. -/
def s_c5 : MM :=
  ⟨ofPairs [(24, 1), (32, 65473), (65496, 65473), (65504, 1)],
   32, 65504, 262144, NULL, .fp_Implicit⟩

/-- Implicit-policy heap with a single free block `[F free 65472]` (the
state right after `mm_init`). -/
def s_c6 : MM :=
  ⟨ofPairs [(24, 1), (32, 65472), (65496, 65472), (65504, 1)],
   32, 65504, 262144, NULL, .fp_Implicit⟩

/-- Implicit-policy heap `[A free 32][B alloc 32][C alloc 65408]`. -/
def s_c8 : MM :=
  ⟨ofPairs [(24, 1), (32, 32), (56, 32), (64, 33), (88, 33),
            (96, 65409), (65496, 65409), (65504, 1)],
   32, 65504, 262144, NULL, .fp_Implicit⟩

/-- Explicit-policy heap `[F free 32][B alloc 65440]` whose free list is
the single block `F` with null links. -/
def s_c10 : MM :=
  ⟨ofPairs [(24, 1), (32, 32), (56, 32), (64, 65441), (65496, 65441), (65504, 1)],
   32, 65504, 262144, 32, .fp_Explicit⟩

/-- Explicit-policy heap `[F1 free 32][B1 alloc 32][F2 free 64][B2 alloc 65344]`
whose free list is `F2, F1` (head `F2 = 96`, then `F1 = 32`). -/
def s_c1 : MM :=
  ⟨ofPairs [(24, 1), (32, 32), (48, 96), (56, 32), (64, 33), (88, 33),
            (96, 64), (104, 32), (152, 64), (160, 65345), (65496, 65345), (65504, 1)],
   32, 65504, 262144, 96, .fp_Explicit⟩

end MemMgr

namespace MemMgr

instance (m : Mem) (L : List (Nat × Nat)) : Decidable (I2 m L) :=
  inferInstanceAs (Decidable (∀ b ∈ L, GET m (b.1 + SIZE b.2 - TYPE_SIZE) = b.2))

instance I3.instDecidable : (L : List (Nat × Nat)) → Decidable (I3 L)
  | [] => isTrue trivial
  | [_] => isTrue trivial
  | x :: y :: L =>
    haveI : Decidable (I3 (y :: L)) := I3.instDecidable (y :: L)
    inferInstanceAs (Decidable (¬(STATUS x.2 = FREE ∧ STATUS y.2 = FREE) ∧ I3 (y :: L)))

instance (L : List (Nat × Nat)) : Decidable (I4 L) :=
  inferInstanceAs (Decidable (∀ b ∈ L, 32 ∣ SIZE b.2 ∧ 0 < SIZE b.2))

instance (s : MM) (L : List (Nat × Nat)) : Decidable (Inv s L) :=
  inferInstanceAs (Decidable (parseHeap s = some L ∧ I2 s.mem L ∧ I3 L ∧ I4 L ∧
    SIZE (GET s.mem s.heap_end) = 0 ∧ 0 < s.heap_start))

/-! ## Observation helpers for concrete executions -/

/-- Whether the footer of the block headed at `a` equals its header
(invariant I2 at one block). -/
def footerMatches (s : MM) (a : Nat) : Bool :=
  GET s.mem (a + SIZE (GET s.mem a) - TYPE_SIZE) == GET s.mem a

/-- Observe a `mm_realloc`/`mm_malloc` result: the returned payload pointer
together with the words at the requested addresses of the final memory. -/
def obsPtrWords (r : Option (Except String (Option Nat × MM))) (addrs : List Nat) :
    Option (Option (Nat × List Nat)) :=
  r.map (fun e => match e with
    | .ok (some p, s) => some (p, addrs.map (fun a => GET s.mem a))
    | _ => none)

/-- Run `mm_free` twice on the same payload pointer; `true` means both
calls returned normally (no double-free abort). -/
def freeTwiceOk (s : MM) (p : Nat) : Bool :=
  match mm_free s p with
  | .error _ => false
  | .ok s1 =>
    match mm_free s1 p with
    | .error _ => false
    | .ok _ => true

/-- Mathematical rounding up to a multiple of 32, as in the spec's
`round_up_32`. -/
def round_up_32 (n : Nat) : Nat := (n + 31) / 32 * 32

/-- The adjusted block size computed by `mm_malloc` and `mm_realloc`:
`ALIGN(size)`, raised to the minimal block size `BS`. -/
def malloc_asize (size : Nat) : Nat :=
  if ALIGN size < BS then BS else ALIGN size

/-- A block fits a request: it is free and at least `req` bytes. -/
def fitB (req : Nat) (b : Nat × Nat) : Prop :=
  STATUS b.2 = FREE ∧ req ≤ SIZE b.2

instance (req : Nat) (b : Nat × Nat) : Decidable (fitB req b) :=
  inferInstanceAs (Decidable (STATUS b.2 = FREE ∧ req ≤ SIZE b.2))

/-- The best-fit bookkeeping of both search loops, abstracted to a list of
`(header address, header word)` candidates in traversal order: track the
first strictly-smaller fitting candidate, break on an exact fit. -/
def bestOfList (req : Nat) : List (Nat × Nat) → Nat → Nat → Nat
  | [], best_fit, _ => best_fit
  | b :: rest, best_fit, smallest_diff =>
    if fitB req b then
      if SIZE b.2 - req = 0 then b.1
      else if SIZE b.2 - req < smallest_diff then bestOfList req rest b.1 (SIZE b.2 - req)
      else bestOfList req rest best_fit smallest_diff
    else bestOfList req rest best_fit smallest_diff

/-- Specification of best fit, following the spec's words: among the
candidates that fit, the one of smallest size, the first such on a tie. -/
def firstMin (req : Nat) : List (Nat × Nat) → Option (Nat × Nat)
  | [] => none
  | b :: rest =>
    if fitB req b then
      match firstMin req rest with
      | none => some b
      | some c => if SIZE c.2 < SIZE b.2 then some c else some b
    else firstMin req rest

instance chain.instDecidable (m : Mem) : (hd : Nat) → (C : List Nat) → Decidable (chain m hd C)
  | hd, [] => inferInstanceAs (Decidable (hd = NULL))
  | hd, a :: rest =>
    haveI := chain.instDecidable m (GET m (a + TYPE_SIZE)) rest
    inferInstanceAs (Decidable (hd = a ∧ chain m (GET m (a + TYPE_SIZE)) rest))

/-- Well-formed explicit free list with explicit member list `C`: the
next-pointer chain from the head passes through `C` and ends at null,
every member is a free block of the parse `L`, and every member's `prev`
link word is null or a block address.  (The converse inclusion — every
free block is listed — is stated separately where a claim grants it.) -/
def freelistOk (s : MM) (L : List (Nat × Nat)) (C : List Nat) : Prop :=
  chain s.mem s.exp_freelist_head C ∧
  (∀ a ∈ C, ∃ b ∈ L, b.1 = a ∧ STATUS b.2 = FREE) ∧
  (∀ a ∈ C, GET s.mem (a + 2 * TYPE_SIZE) = NULL ∨ ∃ b ∈ L, GET s.mem (a + 2 * TYPE_SIZE) = b.1)

instance (s : MM) (L : List (Nat × Nat)) (C : List Nat) : Decidable (freelistOk s L C) :=
  inferInstanceAs (Decidable (chain s.mem s.exp_freelist_head C ∧
    (∀ a ∈ C, ∃ b ∈ L, b.1 = a ∧ STATUS b.2 = FREE) ∧
    (∀ a ∈ C, GET s.mem (a + 2 * TYPE_SIZE) = NULL ∨
      ∃ b ∈ L, GET s.mem (a + 2 * TYPE_SIZE) = b.1)))

/-- Sanity of the link words of the free-list members `C`: each member's
`next` and `prev` words are null or the address of another member.  This
is what the list operations themselves maintain, and all the argument the
allocator's unlink/relink writes need. -/
def linksOk (m : Mem) (C : List Nat) : Prop :=
  ∀ a ∈ C, (GET m (a + TYPE_SIZE) = NULL ∨ GET m (a + TYPE_SIZE) ∈ C) ∧
    (GET m (a + 2 * TYPE_SIZE) = NULL ∨ GET m (a + 2 * TYPE_SIZE) ∈ C)

instance (m : Mem) (C : List Nat) : Decidable (linksOk m C) :=
  inferInstanceAs (Decidable (∀ a ∈ C,
    (GET m (a + TYPE_SIZE) = NULL ∨ GET m (a + TYPE_SIZE) ∈ C) ∧
    (GET m (a + 2 * TYPE_SIZE) = NULL ∨ GET m (a + 2 * TYPE_SIZE) ∈ C)))

/-- Composition named by the spec for zero-allocation: allocate `n` bytes,
then zero `n` payload bytes. -/
def alloc_then_zero (s : MM) (n : Nat) : Option (Except String (Option Nat × MM)) :=
  match mm_malloc s n with
  | none => none
  | some (.error e) => some (.error e)
  | some (.ok (none, s')) => some (.ok (none, s'))
  | some (.ok (some payload, s')) =>
    some (.ok (some payload, { s' with mem := memsetWords s'.mem payload n }))

/-- Implicit-policy heap `[A alloc 32][B alloc 32][C alloc 65408]` (all
allocated), used to exercise a double free whose first free does not
coalesce with a previous free block. -/
def s_c8w : MM :=
  ⟨ofPairs [(24, 1), (32, 33), (56, 33), (64, 33), (88, 33),
            (96, 65409), (65496, 65409), (65504, 1)],
   32, 65504, 262144, NULL, .fp_Implicit⟩

/-- As `s_c5` but with the provider cap right below one more chunk, so
that `ds_sbrk` fails immediately. -/
def s_c5f : MM :=
  ⟨ofPairs [(24, 1), (32, 65473), (65496, 65473), (65504, 1)],
   32, 65504, 131071, NULL, .fp_Implicit⟩

end MemMgr
namespace MemMgr

/-! ## Claim C2: invariant preservation (code bug in the relocation path) -/

/-- C2 (code bug, failing execution): on the heap
`[P alloc 32][A alloc 32][C alloc 32][R free 65376]`, in which invariants
I1-I4 hold, `mm_realloc` of `A`'s payload pointer 72 to 40 bytes takes the
relocation path, completes normally returning the new payload pointer 136,
and leaves the heap with the header of `P` (word 33: size 32, allocated)
different from `P`'s footer (word 32: size 32, free): `mm_free(cur)` was
called on `A`'s header address, so the free logic treated `P`'s footer as
a block header and rewrote it, violating I2. -/
theorem C2_realloc_breaks_I2 :
    Inv s_c2 [(32, 33), (64, 33), (96, 33), (128, 65376)] ∧
    (mm_realloc s_c2 72 40).map (fun e => match e with
      | .ok (some p, s) => some (p, footerMatches s 32, GET s.mem 32, GET s.mem 56)
      | _ => none) = some (some (136, false, 33, 32)) := by
  decide

/-! ## Claim C3: relocation copies from the header address (code bug) -/

/-- C3 (code bug, failing execution): on the heap
`[A alloc 32][C alloc 32][R free 65408]` with `A`'s payload words 111 and
222, resizing `A` (payload pointer 40) to 40 bytes relocates, but the new
block's payload starts with 33 — the old *header tag* of `A` — followed by
111; the spec's copy would give 111 followed by 222.  Moreover `A`'s
header still reads 33 (allocated): the old block was never freed because
`mm_free` was handed the header address. -/
theorem C3_relocate_copies_header :
    Inv s_c3 [(32, 33), (64, 33), (96, 65408)] ∧
    GET s_c3.mem 40 = 111 ∧ GET s_c3.mem 48 = 222 ∧
    obsPtrWords (mm_realloc s_c3 40 40) [104, 112, 32] =
      some (some (104, [33, 111, 33])) ∧ (33 : Nat) ≠ 111 := by
  decide

/-! ## Claim C4: heap growth and the explicit free list (code bug) -/

/-- C4 (code bug, failing execution): on the explicit-policy heap
`[B alloc 65472]` with an empty free list, `mm_sbrk` succeeds and emits a
fresh free block of `CHUNKSIZE = 65536` bytes at address 65504 (the heap
then parses as `[B alloc][new free]`), but the free-list head is still
`NULL`: the new free block was not spliced into the free list, so the list
no longer contains the set of free blocks. -/
theorem C4_sbrk_skips_freelist :
    Inv s_c4 [(32, 65473)] ∧ s_c4.exp_freelist_head = NULL ∧
    (mm_sbrk s_c4).map (fun s =>
        (s.exp_freelist_head, parse s.mem 20 s.heap_start s.heap_end)) =
      some (NULL, some [(32, 65473), (65504, 65536)]) ∧
    STATUS (65536 : Nat) = FREE := by
  decide

/-! ## Claim C5: number of extend-and-retry cycles (counterexample) -/

/-- C5 (counterexample): on the implicit-policy heap `[B alloc 65472]`
(invariants hold), the search for a 100000-byte block misses, extends the
heap, misses again, extends a second time, and only then succeeds at
address 65504: the final `heap_end` is the original one plus two chunks,
so the extend-then-retry cycle ran twice for a single request, and the
failed first retry did not return null. -/
theorem C5_counterexample :
    Inv s_c5 [(32, 65473)] ∧
    (get_free_block s_c5 100000).map (fun r => (r.1, r.2.heap_end)) =
      some (some 65504, 196576) ∧
    196576 = s_c5.heap_end + 2 * CHUNKSIZE := by
  decide

/-! ## Claim C6: allocation sizing (counterexample at a wrapping request) -/

/-- C6 (counterexample): on the freshly initialized implicit heap
`[F free 65472]`, `mm_malloc (2^64 - 20)` returns the non-null payload
pointer 40 backed by a block of total size 32, although
`round_up_32(n + 16)` is not 32 and the usable payload `32 - 16 = 16` is
smaller than the request: `ALIGN` wraps modulo `2^64` for huge requests. -/
theorem C6_counterexample :
    Inv s_c6 [(32, 65472)] ∧
    (mm_malloc s_c6 (2 ^ 64 - 20)).map (fun e => match e with
      | .ok (some p, s) => some (p, SIZE (GET s.mem (p - TYPE_SIZE)))
      | _ => none) = some (some (40, 32)) ∧
    round_up_32 (2 ^ 64 - 20 + 16) ≠ 32 ∧ 32 - 16 < 2 ^ 64 - 20 := by
  decide

/-! ## Claim C8: double-free detection (counterexample) -/

/-- C8 (counterexample): on the heap `[A free 32][B alloc 32][C alloc 65408]`
(invariants hold), the first `mm_free` of `B`'s payload pointer 72 merges
`B` with the free previous block `A`, writing the merged header at `A` and
leaving `B`'s old header word 33 (allocated) in place; the second
`mm_free 72` therefore passes the status check and returns normally — the
sequence `free(p); free(p)` does not abort. -/
theorem C8_counterexample :
    Inv s_c8 [(32, 32), (64, 33), (96, 65409)] ∧
    freeTwiceOk s_c8 72 = true ∧
    (match mm_free s_c8 72 with
      | .ok s1 => some (GET s1.mem 64)
      | .error _ => none) = some 33 := by
  decide

end MemMgr
namespace MemMgr

/-! ## Basic lemmas: memory, tags, sizes -/

theorem GET_PUT_same (m : Mem) (p v : Nat) : GET (PUT m p v) p = v % WORD_MOD := by
  simp [GET, PUT]

theorem GET_PUT_ne (m : Mem) (p v a : Nat) (h : a ≠ p) : GET (PUT m p v) a = GET m a := by
  simp [GET, PUT, h]

theorem WORD_MOD_pos : 0 < WORD_MOD := by norm_num [WORD_MOD]

theorem dvd8_WORD_MOD : 8 ∣ WORD_MOD := by norm_num [WORD_MOD]

theorem dvd32_WORD_MOD : 32 ∣ WORD_MOD := by norm_num [WORD_MOD]

theorem SIZE_dvd8 (v : Nat) : 8 ∣ SIZE v := by
  have h : v % WORD_MOD % 8 = v % 8 := Nat.mod_mod_of_dvd v dvd8_WORD_MOD
  unfold SIZE
  omega

theorem SIZE_le (v : Nat) : SIZE v ≤ WORD_MOD - 8 := by
  have h1 : v % WORD_MOD < WORD_MOD := Nat.mod_lt v WORD_MOD_pos
  have h2 : v % WORD_MOD % 8 = v % 8 := Nat.mod_mod_of_dvd v dvd8_WORD_MOD
  have h3 := SIZE_dvd8 v
  unfold SIZE at h3 ⊢
  simp only [WORD_MOD] at h1 ⊢
  omega

theorem SIZE_lt (v : Nat) : SIZE v < WORD_MOD := by
  have := SIZE_le v
  have := WORD_MOD_pos
  omega

theorem STATUS_lt (v : Nat) : STATUS v < 8 := Nat.mod_lt v (by norm_num)

theorem SIZE_mod (v : Nat) : SIZE (v % WORD_MOD) = SIZE v := by
  unfold SIZE
  rw [Nat.mod_mod_of_dvd v (dvd_refl WORD_MOD), Nat.mod_mod_of_dvd v dvd8_WORD_MOD]

theorem STATUS_mod (v : Nat) : STATUS (v % WORD_MOD) = STATUS v := by
  unfold STATUS
  exact Nat.mod_mod_of_dvd v dvd8_WORD_MOD

theorem pack_eq_add (s t : Nat) (hs : 8 ∣ s) (ht : t < 8) : PACK s t = s + t := by
  obtain ⟨k, rfl⟩ := hs
  have h8 : (8 : Nat) * k = 2 ^ 3 * k := by norm_num
  unfold PACK
  rw [h8]
  exact (Nat.mul_add_lt_is_or (by omega) k).symm

theorem pack_lt (s t : Nat) (hs : 8 ∣ s) (hsW : s < WORD_MOD) (ht : t < 8) :
    PACK s t < WORD_MOD := by
  rw [pack_eq_add s t hs ht]
  have h := SIZE_le 0
  simp only [WORD_MOD] at hsW ⊢
  omega

theorem SIZE_PACK (s t : Nat) (hs : 8 ∣ s) (hsW : s < WORD_MOD) (ht : t < 8) :
    SIZE (PACK s t) = s := by
  rw [pack_eq_add s t hs ht]
  unfold SIZE
  have h1 : (s + t) % WORD_MOD = s + t := by
    apply Nat.mod_eq_of_lt
    simp only [WORD_MOD] at hsW ⊢
    omega
  rw [h1]
  omega

theorem STATUS_PACK (s t : Nat) (hs : 8 ∣ s) (ht : t < 8) :
    STATUS (PACK s t) = t := by
  rw [pack_eq_add s t hs ht]
  unfold STATUS
  omega

theorem shiftRight5 (n : Nat) : n >>> 5 = n / 32 := by
  rw [Nat.shiftRight_eq_div_pow]

theorem shiftLeft5 (n : Nat) : n <<< 5 = n * 32 := by
  rw [Nat.shiftLeft_eq]

theorem round_up_32_ge (x : Nat) : x ≤ round_up_32 x := by
  have h := Nat.div_add_mod (x + 31) 32
  have h2 : (x + 31) % 32 < 32 := Nat.mod_lt _ (by norm_num)
  unfold round_up_32
  omega

theorem round_up_32_dvd (x : Nat) : 32 ∣ round_up_32 x := Dvd.intro_left _ rfl

theorem round_up_32_le (x : Nat) : round_up_32 x ≤ x + 31 := by
  have h := Nat.div_add_mod (x + 31) 32
  unfold round_up_32
  omega

theorem ALIGN_eq (n : Nat) (h : n ≤ WORD_MOD - 48) : ALIGN n = round_up_32 (n + 16) := by
  unfold ALIGN
  have hW : (0:Nat) < WORD_MOD := WORD_MOD_pos
  have h1 : (n + 2 * TYPE_SIZE - 1) % WORD_MOD = n + 15 := by
    apply Nat.mod_eq_of_lt
    simp only [WORD_MOD] at h ⊢
    simp only [TYPE_SIZE]
    omega
  rw [h1, shiftRight5, shiftLeft5]
  have hd := Nat.div_add_mod (n + 15) 32
  have hm : (n + 15) % 32 < 32 := Nat.mod_lt _ (by norm_num)
  have h2 : ((n + 15) / 32 + 1) * 32 < WORD_MOD := by
    simp only [WORD_MOD] at h ⊢
    omega
  rw [Nat.mod_eq_of_lt h2]
  have h3 : (n + 15) / 32 + 1 = (n + 16 + 31) / 32 := by
    have : n + 16 + 31 = n + 15 + 32 := by omega
    rw [this, Nat.add_div_right _ (by norm_num)]
  unfold round_up_32
  omega

theorem ALIGN_dvd32 (n : Nat) : 32 ∣ ALIGN n := by
  unfold ALIGN
  apply (Nat.dvd_mod_iff dvd32_WORD_MOD).mpr
  rw [shiftLeft5]
  exact Dvd.intro_left _ rfl

theorem ALIGN_lt (n : Nat) : ALIGN n < WORD_MOD := Nat.mod_lt _ WORD_MOD_pos

theorem malloc_asize_dvd32 (n : Nat) : 32 ∣ malloc_asize n := by
  unfold malloc_asize
  split
  · exact Dvd.intro 1 rfl
  · exact ALIGN_dvd32 n

theorem malloc_asize_lt (n : Nat) : malloc_asize n < WORD_MOD := by
  unfold malloc_asize
  split
  · norm_num [BS, WORD_MOD]
  · exact ALIGN_lt n

theorem malloc_asize_ge_BS (n : Nat) : BS ≤ malloc_asize n := by
  unfold malloc_asize
  split
  · exact le_refl BS
  · omega

theorem malloc_asize_eq (n : Nat) (h0 : 0 < n) (h : n ≤ WORD_MOD - 48) :
    malloc_asize n = round_up_32 (n + 16) := by
  have hA := ALIGN_eq n h
  have hge : 32 ≤ round_up_32 (n + 16) := by
    have h1 := round_up_32_ge (n + 16)
    have h2 := round_up_32_dvd (n + 16)
    omega
  unfold malloc_asize
  rw [hA]
  have hneg : ¬(round_up_32 (n + 16) < BS) := by
    simp only [BS]
    omega
  rw [if_neg hneg]

end MemMgr
namespace MemMgr

/-! ## Claim C9: zero-allocate computes its size modulo `2^64` -/

/-- C9: `mm_calloc` computes the requested byte count as `m * n` reduced
modulo `2^64`: it behaves exactly as allocate-then-zero of
`(m * n) % 2^64` bytes, and when the mathematical product is a non-zero
multiple of `2^64` it returns null although both arguments are positive
(the request reduces to `mm_malloc 0`). -/
theorem C9_calloc_wraps (s : MM) (m n : Nat) (_hm : 0 < m) (_hn : 0 < n)
    (_hp : WORD_MOD ≤ m * n) :
    mm_calloc s m n = alloc_then_zero s ((m * n) % WORD_MOD) ∧
    ((m * n) % WORD_MOD = 0 → mm_calloc s m n = some (.ok (none, s))) := by
  constructor
  · rfl
  · intro h0
    unfold mm_calloc
    rw [h0]
    rfl

theorem C9_calloc_wraps_witness :
    (0:Nat) < 2 ^ 32 ∧ WORD_MOD ≤ 2 ^ 32 * 2 ^ 32 ∧
    mm_calloc s_c6 (2 ^ 32) (2 ^ 32) = some (.ok (none, s_c6)) :=
  ⟨by norm_num, by norm_num [WORD_MOD],
    (C9_calloc_wraps s_c6 (2 ^ 32) (2 ^ 32) (by norm_num) (by norm_num)
      (by norm_num [WORD_MOD])).2 (by norm_num [WORD_MOD])⟩

/-! ## Claim C5 (amended): the retry loop stops only on failed growth -/

theorem mm_sbrk_none_iff (s : MM) :
    mm_sbrk s = none ↔ s.brk_max < s.heap_end + BS + CHUNKSIZE := by
  unfold mm_sbrk
  by_cases h : s.brk_max < s.heap_end + BS + CHUNKSIZE
  · simp [h]
  · simp only [if_neg h]
    constructor
    · intro hc
      exfalso
      revert hc
      split <;> simp
    · intro hc
      exact absurd hc h

theorem imp_search_null_sbrk :
    ∀ (fuel : Nat) (s : MM) (size : Nat) (s' : MM),
      bf_get_free_block_implicit s size fuel = some (none, s') →
      mm_sbrk s' = none := by
  intro fuel
  induction fuel with
  | zero =>
    intro s size s' h
    simp [bf_get_free_block_implicit] at h
  | succ n ih =>
    intro s size s' h
    rw [bf_get_free_block_implicit] at h
    cases hscan : bf_scan_implicit s.mem size (scan_fuel s) s.heap_start NULL (WORD_MOD - 1) with
    | none => rw [hscan] at h; simp at h
    | some best =>
      rw [hscan] at h
      simp only at h
      by_cases hb : best = NULL
      · rw [if_pos hb] at h
        cases hsb : mm_sbrk s with
        | none =>
          rw [hsb] at h
          simp only [Option.some.injEq, Prod.mk.injEq] at h
          rw [← h.2]
          exact hsb
        | some s2 =>
          rw [hsb] at h
          exact ih s2 size s' h
      · rw [if_neg hb] at h
        simp at h

theorem exp_search_null_sbrk :
    ∀ (fuel : Nat) (s : MM) (size : Nat) (s' : MM),
      bf_get_free_block_explicit s size fuel = some (none, s') →
      mm_sbrk s' = none := by
  intro fuel
  induction fuel with
  | zero =>
    intro s size s' h
    simp [bf_get_free_block_explicit] at h
  | succ n ih =>
    intro s size s' h
    rw [bf_get_free_block_explicit] at h
    cases hscan : bf_scan_explicit s.mem size (scan_fuel s) s.exp_freelist_head NULL (WORD_MOD - 1) with
    | none => rw [hscan] at h; simp at h
    | some best =>
      rw [hscan] at h
      simp only at h
      by_cases hb : best = NULL
      · rw [if_pos hb] at h
        cases hsb : mm_sbrk s with
        | none =>
          rw [hsb] at h
          simp only [Option.some.injEq, Prod.mk.injEq] at h
          rw [← h.2]
          exact hsb
        | some s2 =>
          rw [hsb] at h
          exact ih s2 size s' h
      · rw [if_neg hb] at h
        simp at h

/-- C5 (amended): whenever either search returns null (as `some (none, s')`;
the outer `none` is only the model's fuel marker), the data segment cannot
grow any further at the final state — the searches never give up while
`mm_sbrk` succeeds, so null propagates exactly from a failed extension,
not from a once-retried miss. -/
theorem C5_null_only_on_sbrk_failure (fuel : Nat) (s : MM) (size : Nat) (s' : MM)
    (h : bf_get_free_block_implicit s size fuel = some (none, s') ∨
         bf_get_free_block_explicit s size fuel = some (none, s')) :
    mm_sbrk s' = none ∧ s'.brk_max < s'.heap_end + BS + CHUNKSIZE := by
  have hn : mm_sbrk s' = none := by
    cases h with
    | inl h => exact imp_search_null_sbrk fuel s size s' h
    | inr h => exact exp_search_null_sbrk fuel s size s' h
  exact ⟨hn, (mm_sbrk_none_iff s').mp hn⟩

theorem C5_null_only_on_sbrk_failure_witness :
    mm_sbrk s_c5f = none ∧ s_c5f.brk_max < s_c5f.heap_end + BS + CHUNKSIZE :=
  C5_null_only_on_sbrk_failure (retry_fuel s_c5f) s_c5f 100000 s_c5f (Or.inl rfl)

end MemMgr
namespace MemMgr

/-! ## Claim C8 (amended): double-free detection -/

/-- C8 (amended): `mm_free` aborts with the double-free error exactly when
the boundary tag at `p - 8` reads status free; in particular
`free(p); free(p)` aborts whenever the first free found the previous
neighbour allocated (coalesce cases 1 and 3, shown here for the implicit
policy): the first free then writes the free header at `p - 8` itself, and
the second free trips over it. -/
theorem C8_double_free (s : MM) (p : Nat) :
    (p ≠ NULL → STATUS (GET s.mem (p - TYPE_SIZE)) = FREE →
      mm_free s p = .error "Double free detected") ∧
    (∀ s1, p ≠ NULL → s.freelist_policy = .fp_Implicit →
      STATUS (GET s.mem (p - TYPE_SIZE -
        SIZE (GET s.mem (p - TYPE_SIZE - TYPE_SIZE)))) = ALLOC →
      0 < SIZE (GET s.mem (p - TYPE_SIZE)) →
      mm_free s p = .ok s1 →
      mm_free s1 p = .error "Double free detected") := by
  constructor
  · intro hp hfree
    unfold mm_free
    rw [if_neg hp, if_pos hfree]
  · intro s1 hp hpol hprev hsz hok
    unfold mm_free at hok
    rw [if_neg hp] at hok
    by_cases hfree : STATUS (GET s.mem (p - TYPE_SIZE)) = FREE
    · rw [if_pos hfree] at hok
      exact absurd hok (by simp)
    · rw [if_neg hfree, if_pos hpol] at hok
      have hs1 : s1 = (imp_coalesce s (p - TYPE_SIZE)).1 := by
        cases hok
        rfl
      subst hs1
      -- the merged header is written at p - TYPE_SIZE with status free
      have hkey : STATUS (GET (imp_coalesce s (p - TYPE_SIZE)).1.mem (p - TYPE_SIZE)) = FREE := by
        unfold imp_coalesce
        simp only
        set m := s.mem with hm
        set bp := p - TYPE_SIZE with hbp
        set sz := SIZE (GET m bp) with hszdef
        have h8 : 8 ∣ sz := SIZE_dvd8 _
        have hprev' : STATUS (GET m (bp - SIZE (GET m (bp - TYPE_SIZE)))) = ALLOC := hprev
        by_cases hnext : STATUS (GET m (bp + SIZE (GET m bp))) = ALLOC
        · rw [if_pos ⟨hprev', hnext⟩]
          simp only
          set w := PACK sz FREE with hw
          have hput1 : GET (PUT m bp w) bp = w % WORD_MOD := GET_PUT_same m bp w
          have hstw : STATUS (w % WORD_MOD) = FREE := by
            rw [STATUS_mod, hw, STATUS_PACK sz FREE h8 (by norm_num [FREE])]
          by_cases hft : bp + SIZE (GET (PUT m bp w) bp) - TYPE_SIZE = bp
          · rw [hft, GET_PUT_same]
            exact hstw
          · rw [GET_PUT_ne _ _ _ _ (fun hc => hft hc.symm), hput1]
            exact hstw
        · have hnp : ¬(STATUS (GET m (bp - SIZE (GET m (bp - TYPE_SIZE)))) = ALLOC ∧
              STATUS (GET m (bp + SIZE (GET m bp))) = ALLOC) := by
            intro hc
            exact hnext hc.2
          rw [if_neg hnp]
          have hnp2 : ¬(¬STATUS (GET m (bp - SIZE (GET m (bp - TYPE_SIZE)))) = ALLOC ∧
              STATUS (GET m (bp + SIZE (GET m bp))) = ALLOC) := by
            intro hc
            exact hc.1 hprev'
          rw [if_neg hnp2]
          rw [if_pos ⟨hprev', hnext⟩]
          simp only
          set sz2 := sz + SIZE (GET m (bp + SIZE (GET m bp))) with hsz2
          have h82 : 8 ∣ sz2 := Nat.dvd_add h8 (SIZE_dvd8 _)
          set w := PACK sz2 FREE with hw
          have hput1 : GET (PUT m bp w) bp = w % WORD_MOD := GET_PUT_same m bp w
          have hstw : STATUS (w % WORD_MOD) = FREE := by
            rw [STATUS_mod, hw, STATUS_PACK sz2 FREE h82 (by norm_num [FREE])]
          by_cases hft : bp + SIZE (GET (PUT m bp w) bp) - TYPE_SIZE = bp
          · rw [hft, GET_PUT_same]
            exact hstw
          · rw [GET_PUT_ne _ _ _ _ (fun hc => hft hc.symm), hput1]
            exact hstw
      unfold mm_free
      rw [if_neg hp, if_pos hkey]

theorem C8_double_free_witness :
    mm_free ((imp_coalesce s_c8w (72 - TYPE_SIZE)).1) 72 = .error "Double free detected" :=
  (C8_double_free s_c8w 72).2 ((imp_coalesce s_c8w (72 - TYPE_SIZE)).1)
    (by decide) rfl (by decide) (by decide) rfl

end MemMgr
namespace MemMgr

/-! ## State-field preservation of the growth and search routines -/

theorem mm_sbrk_fields (s s' : MM) (h : mm_sbrk s = some s') :
    s'.heap_start = s.heap_start ∧ s'.freelist_policy = s.freelist_policy ∧
    s'.exp_freelist_head = s.exp_freelist_head ∧ s'.brk_max = s.brk_max ∧
    s'.heap_end = s.heap_end + CHUNKSIZE := by
  unfold mm_sbrk at h
  by_cases hc : s.brk_max < s.heap_end + BS + CHUNKSIZE
  · rw [if_pos hc] at h
    exact absurd h (by simp)
  · rw [if_neg hc] at h
    by_cases hf : STATUS (GET (PUT s.mem (s.heap_end + CHUNKSIZE) 0x1)
        (s.heap_end - TYPE_SIZE)) = FREE
    · simp only [if_pos hf] at h
      cases h
      exact ⟨rfl, rfl, rfl, rfl, rfl⟩
    · simp only [if_neg hf] at h
      cases h
      exact ⟨rfl, rfl, rfl, rfl, rfl⟩

theorem imp_search_fields :
    ∀ (fuel : Nat) (s : MM) (size : Nat) (r : Option Nat) (s1 : MM),
      bf_get_free_block_implicit s size fuel = some (r, s1) →
      s1.heap_start = s.heap_start ∧ s1.freelist_policy = s.freelist_policy ∧
      s1.exp_freelist_head = s.exp_freelist_head ∧ s1.brk_max = s.brk_max := by
  intro fuel
  induction fuel with
  | zero =>
    intro s size r s1 h
    simp [bf_get_free_block_implicit] at h
  | succ n ih =>
    intro s size r s1 h
    rw [bf_get_free_block_implicit] at h
    cases hscan : bf_scan_implicit s.mem size (scan_fuel s) s.heap_start NULL (WORD_MOD - 1) with
    | none => rw [hscan] at h; simp at h
    | some best =>
      rw [hscan] at h
      simp only at h
      by_cases hb : best = NULL
      · rw [if_pos hb] at h
        cases hsb : mm_sbrk s with
        | none =>
          rw [hsb] at h
          cases h
          exact ⟨rfl, rfl, rfl, rfl⟩
        | some s2 =>
          rw [hsb] at h
          have h1 := ih s2 size r s1 h
          have h2 := mm_sbrk_fields s s2 hsb
          exact ⟨h1.1.trans h2.1, h1.2.1.trans h2.2.1, h1.2.2.1.trans h2.2.2.1,
            h1.2.2.2.trans h2.2.2.2.1⟩
      · rw [if_neg hb] at h
        cases h
        exact ⟨rfl, rfl, rfl, rfl⟩

theorem exp_search_fields :
    ∀ (fuel : Nat) (s : MM) (size : Nat) (r : Option Nat) (s1 : MM),
      bf_get_free_block_explicit s size fuel = some (r, s1) →
      s1.heap_start = s.heap_start ∧ s1.freelist_policy = s.freelist_policy ∧
      s1.exp_freelist_head = s.exp_freelist_head ∧ s1.brk_max = s.brk_max := by
  intro fuel
  induction fuel with
  | zero =>
    intro s size r s1 h
    simp [bf_get_free_block_explicit] at h
  | succ n ih =>
    intro s size r s1 h
    rw [bf_get_free_block_explicit] at h
    cases hscan : bf_scan_explicit s.mem size (scan_fuel s) s.exp_freelist_head NULL (WORD_MOD - 1) with
    | none => rw [hscan] at h; simp at h
    | some best =>
      rw [hscan] at h
      simp only at h
      by_cases hb : best = NULL
      · rw [if_pos hb] at h
        cases hsb : mm_sbrk s with
        | none =>
          rw [hsb] at h
          cases h
          exact ⟨rfl, rfl, rfl, rfl⟩
        | some s2 =>
          rw [hsb] at h
          have h1 := ih s2 size r s1 h
          have h2 := mm_sbrk_fields s s2 hsb
          exact ⟨h1.1.trans h2.1, h1.2.1.trans h2.2.1, h1.2.2.1.trans h2.2.2.1,
            h1.2.2.2.trans h2.2.2.2.1⟩
      · rw [if_neg hb] at h
        cases h
        exact ⟨rfl, rfl, rfl, rfl⟩

theorem get_free_block_fields (s : MM) (size : Nat) (r : Option Nat) (s1 : MM)
    (h : get_free_block s size = some (r, s1)) :
    s1.heap_start = s.heap_start ∧ s1.freelist_policy = s.freelist_policy ∧
    s1.exp_freelist_head = s.exp_freelist_head ∧ s1.brk_max = s.brk_max := by
  unfold get_free_block at h
  cases hp : s.freelist_policy with
  | fp_Implicit =>
    rw [hp] at h
    have h1 := imp_search_fields _ s size r s1 h
    exact ⟨h1.1, h1.2.1.trans hp, h1.2.2.1, h1.2.2.2⟩
  | fp_Explicit =>
    rw [hp] at h
    have h1 := exp_search_fields _ s size r s1 h
    exact ⟨h1.1, h1.2.1.trans hp, h1.2.2.1, h1.2.2.2⟩

end MemMgr
namespace MemMgr

/-- After `free_from_free_list`, the unlinked block's own link words are
null. -/
theorem free_from_free_list_links (s : MM) (bp : Nat) :
    GET (free_from_free_list s bp).mem (bp + TYPE_SIZE) = NULL ∧
    GET (free_from_free_list s bp).mem (bp + 2 * TYPE_SIZE) = NULL := by
  unfold free_from_free_list
  simp only
  constructor
  · rw [GET_PUT_ne _ _ _ _ (by simp only [TYPE_SIZE]; omega), GET_PUT_same]
    rfl
  · rw [GET_PUT_same]
    rfl

/-- `free_from_free_list` writes nothing except the two link words of `bp`
and, when present, the next word of the old `prev` and the prev word of
the old `next`. -/
theorem free_from_free_list_frame (s : MM) (bp a : Nat)
    (h8 : a ≠ bp + TYPE_SIZE) (h16 : a ≠ bp + 2 * TYPE_SIZE)
    (hp : GET s.mem (bp + 2 * TYPE_SIZE) ≠ NULL →
      a ≠ GET s.mem (bp + 2 * TYPE_SIZE) + TYPE_SIZE)
    (hn : GET s.mem (bp + TYPE_SIZE) ≠ NULL →
      a ≠ GET s.mem (bp + TYPE_SIZE) + 2 * TYPE_SIZE) :
    GET (free_from_free_list s bp).mem a = GET s.mem a := by
  unfold free_from_free_list
  simp only
  rw [GET_PUT_ne _ _ _ _ h16, GET_PUT_ne _ _ _ _ h8]
  by_cases hnx : GET s.mem (bp + TYPE_SIZE) ≠ NULL
  · rw [if_pos hnx, GET_PUT_ne _ _ _ _ (hn hnx)]
    by_cases hpv : GET s.mem (bp + 2 * TYPE_SIZE) ≠ NULL
    · rw [if_pos hpv, GET_PUT_ne _ _ _ _ (hp hpv)]
    · rw [if_neg hpv]
  · rw [if_neg hnx]
    by_cases hpv : GET s.mem (bp + 2 * TYPE_SIZE) ≠ NULL
    · rw [if_pos hpv, GET_PUT_ne _ _ _ _ (hp hpv)]
    · rw [if_neg hpv]

/-! ## Claim C10: exact-fit allocation under the explicit policy -/

/-- C10: when the explicit-policy allocator takes a free block that fits
exactly (no split), the first two payload words of the returned block —
the former `next_free`/`prev_free` fields — are both null on return, and
no other payload word of that block is written (the only other writes are
the block's header and footer and, outside this block, the neighbour
links).  The hypotheses `hprev`/`hnext` say the neighbour link words lie
outside this block's payload, which the free-list invariant guarantees. -/
theorem C10_exact_fit_clears_links
    (s : MM) (n bp : Nat) (s1 : MM)
    (hpol : s.freelist_policy = .fp_Explicit)
    (hn : n ≠ 0)
    (hsearch : get_free_block s (malloc_asize n) = some (some bp, s1))
    (hexact : SIZE (GET s1.mem bp) = malloc_asize n)
    (hprev : GET s1.mem (bp + 2 * TYPE_SIZE) ≠ NULL →
      GET s1.mem (bp + 2 * TYPE_SIZE) + TYPE_SIZE < bp + 3 * TYPE_SIZE ∨
      bp + malloc_asize n - TYPE_SIZE ≤ GET s1.mem (bp + 2 * TYPE_SIZE) + TYPE_SIZE)
    (hnext : GET s1.mem (bp + TYPE_SIZE) ≠ NULL →
      GET s1.mem (bp + TYPE_SIZE) + 2 * TYPE_SIZE < bp + 3 * TYPE_SIZE ∨
      bp + malloc_asize n - TYPE_SIZE ≤ GET s1.mem (bp + TYPE_SIZE) + 2 * TYPE_SIZE) :
    obsPtrWords (mm_malloc s n) [bp + TYPE_SIZE, bp + 2 * TYPE_SIZE] =
      some (some (bp + TYPE_SIZE, [NULL, NULL])) ∧
    ∀ a, bp + 3 * TYPE_SIZE ≤ a → a < bp + malloc_asize n - TYPE_SIZE →
      obsPtrWords (mm_malloc s n) [a] = some (some (bp + TYPE_SIZE, [GET s1.mem a])) := by
  have h8a : (8:Nat) ∣ malloc_asize n := dvd_trans (by norm_num) (malloc_asize_dvd32 n)
  have haW : malloc_asize n < WORD_MOD := malloc_asize_lt n
  have h32 : BS ≤ malloc_asize n := malloc_asize_ge_BS n
  have hpol1 : s1.freelist_policy = .fp_Explicit :=
    ((get_free_block_fields s (malloc_asize n) (some bp) s1 hsearch).2.1).trans hpol
  have hsearch' : get_free_block s (if ALIGN n < BS then BS else ALIGN n) =
      some (some bp, s1) := hsearch
  have hc1 : ¬((if ALIGN n < BS then BS else ALIGN n) + BS ≤ SIZE (GET s1.mem bp)) := by
    rw [hexact]
    show ¬(malloc_asize n + BS ≤ malloc_asize n)
    simp only [BS]
    omega
  have hc2 : ¬(SIZE (GET s1.mem bp) ≠ (if ALIGN n < BS then BS else ALIGN n)) := by
    rw [hexact]
    exact fun hcc => hcc rfl
  have hrun : mm_malloc s n = some (.ok (some (bp + TYPE_SIZE),
      free_from_free_list
        { s1 with mem := (PUT (PUT s1.mem bp (PACK (SIZE (GET s1.mem bp)) ALLOC))
            (bp + SIZE (GET (PUT s1.mem bp (PACK (SIZE (GET s1.mem bp)) ALLOC)) bp) - TYPE_SIZE)
            (PACK (SIZE (GET s1.mem bp)) ALLOC)) } bp)) := by
    unfold mm_malloc
    rw [if_neg hn]
    simp only [hsearch']
    rw [if_neg hc1, if_neg hc2]
    simp only [hpol1, if_pos]
  have hs1v : SIZE (GET (PUT s1.mem bp (PACK (SIZE (GET s1.mem bp)) ALLOC)) bp) =
      malloc_asize n := by
    rw [GET_PUT_same, SIZE_mod,
      SIZE_PACK _ _ (SIZE_dvd8 _) (SIZE_lt _) (by norm_num [ALLOC]), hexact]
  rw [hs1v, hexact] at hrun
  have hA32 : 32 ≤ malloc_asize n := by
    have := malloc_asize_ge_BS n
    simpa [BS] using this
  have hr8 : GET (PUT (PUT s1.mem bp (PACK (malloc_asize n) ALLOC))
      (bp + malloc_asize n - TYPE_SIZE) (PACK (malloc_asize n) ALLOC)) (bp + TYPE_SIZE) =
      GET s1.mem (bp + TYPE_SIZE) := by
    rw [GET_PUT_ne _ _ _ _ (by simp only [TYPE_SIZE]; omega),
      GET_PUT_ne _ _ _ _ (by simp only [TYPE_SIZE]; omega)]
  have hr16 : GET (PUT (PUT s1.mem bp (PACK (malloc_asize n) ALLOC))
      (bp + malloc_asize n - TYPE_SIZE) (PACK (malloc_asize n) ALLOC)) (bp + 2 * TYPE_SIZE) =
      GET s1.mem (bp + 2 * TYPE_SIZE) := by
    rw [GET_PUT_ne _ _ _ _ (by simp only [TYPE_SIZE]; omega),
      GET_PUT_ne _ _ _ _ (by simp only [TYPE_SIZE]; omega)]
  constructor
  · rw [hrun]
    simp only [obsPtrWords, Option.map, List.map]
    have hl := free_from_free_list_links
      { s1 with mem := (PUT (PUT s1.mem bp (PACK (malloc_asize n) ALLOC))
        (bp + malloc_asize n - TYPE_SIZE) (PACK (malloc_asize n) ALLOC)) } bp
    rw [hl.1, hl.2]
  · intro a ha1 ha2
    rw [hrun]
    simp only [obsPtrWords, Option.map, List.map]
    have hfr := free_from_free_list_frame
      { s1 with mem := (PUT (PUT s1.mem bp (PACK (malloc_asize n) ALLOC))
        (bp + malloc_asize n - TYPE_SIZE) (PACK (malloc_asize n) ALLOC)) } bp a
      (by simp only [TYPE_SIZE] at ha1 ⊢; omega)
      (by simp only [TYPE_SIZE] at ha1 ⊢; omega)
      (by
        intro hpv
        simp only at hpv ⊢
        rw [hr16] at hpv ⊢
        have := hprev hpv
        simp only [TYPE_SIZE] at this ha1 ha2 ⊢
        omega)
      (by
        intro hnv
        simp only at hnv ⊢
        rw [hr8] at hnv ⊢
        have := hnext hnv
        simp only [TYPE_SIZE] at this ha1 ha2 ⊢
        omega)
    simp only at hfr
    rw [hfr]
    rw [GET_PUT_ne _ _ _ _ (by simp only [TYPE_SIZE] at ha2 ⊢; omega),
      GET_PUT_ne _ _ _ _ (by simp only [TYPE_SIZE] at ha1 ⊢; omega)]

end MemMgr
namespace MemMgr

theorem C10_exact_fit_clears_links_witness :
    obsPtrWords (mm_malloc s_c10 16) [32 + TYPE_SIZE, 32 + 2 * TYPE_SIZE] =
      some (some (32 + TYPE_SIZE, [NULL, NULL])) :=
  (C10_exact_fit_clears_links s_c10 16 32 s_c10 rfl (by decide) rfl (by decide)
    (fun h => absurd (by decide) h) (fun h => absurd (by decide) h)).1

end MemMgr
namespace MemMgr

/-! ## Parse lemmas -/

theorem parse_some_nil (m : Mem) (f a e : Nat) (h : parse m f a e = some []) : a = e := by
  cases f with
  | zero => simp [parse] at h
  | succ f =>
    rw [parse] at h
    by_cases h1 : a = e
    · exact h1
    · rw [if_neg h1] at h
      by_cases h2 : e < a
      · rw [if_pos h2] at h
        simp at h
      · rw [if_neg h2] at h
        by_cases h3 : SIZE (GET m a) = 0
        · rw [if_pos h3] at h
          simp at h
        · rw [if_neg h3] at h
          cases hp : parse m f (a + SIZE (GET m a)) e with
          | none => rw [hp] at h; simp at h
          | some L => rw [hp] at h; simp at h

theorem parse_some_cons (m : Mem) (f a e : Nat) (b : Nat × Nat) (L : List (Nat × Nat))
    (h : parse m f a e = some (b :: L)) :
    b = (a, GET m a) ∧ a < e ∧ SIZE (GET m a) ≠ 0 ∧
    ∃ f', f = f' + 1 ∧ parse m f' (a + SIZE (GET m a)) e = some L := by
  cases f with
  | zero => simp [parse] at h
  | succ f =>
    rw [parse] at h
    by_cases h1 : a = e
    · rw [if_pos h1] at h
      simp at h
    · rw [if_neg h1] at h
      by_cases h2 : e < a
      · rw [if_pos h2] at h
        simp at h
      · rw [if_neg h2] at h
        by_cases h3 : SIZE (GET m a) = 0
        · rw [if_pos h3] at h
          simp at h
        · rw [if_neg h3] at h
          cases hp : parse m f (a + SIZE (GET m a)) e with
          | none => rw [hp] at h; simp at h
          | some L' =>
            rw [hp] at h
            simp only [Option.some.injEq, List.cons.injEq] at h
            exact ⟨h.1.symm, by omega, h3, f, rfl, by rw [hp, h.2]⟩

theorem parse_cons_intro (m : Mem) (f a e : Nat) (L : List (Nat × Nat))
    (h1 : a < e) (h3 : SIZE (GET m a) ≠ 0)
    (h : parse m f (a + SIZE (GET m a)) e = some L) :
    parse m (f + 1) a e = some ((a, GET m a) :: L) := by
  rw [parse, if_neg (by omega), if_neg (by omega), if_neg h3, h]

theorem parse_nil_intro (m : Mem) (f e : Nat) : parse m (f + 1) e e = some [] := by
  rw [parse, if_pos rfl]

theorem parse_mono (m : Mem) (e : Nat) :
    ∀ (L : List (Nat × Nat)) (f f' a : Nat),
      parse m f a e = some L → f ≤ f' → parse m f' a e = some L := by
  intro L
  induction L with
  | nil =>
    intro f f' a h hle
    have ha : a = e := parse_some_nil m f a e h
    have hf : f ≠ 0 := by
      intro h0
      rw [h0] at h
      simp [parse] at h
    cases f' with
    | zero => omega
    | succ f'' => rw [ha]; exact parse_nil_intro m f'' e
  | cons b L ih =>
    intro f f' a h hle
    obtain ⟨hb, hae, hsz, f0, rfl, hrest⟩ := parse_some_cons m f a e b L h
    cases f' with
    | zero => omega
    | succ f1 =>
      have := ih f0 f1 (a + SIZE (GET m a)) hrest (by omega)
      rw [hb]
      exact parse_cons_intro m f1 a e L hae hsz this

theorem parse_mem_facts (m : Mem) (e : Nat) :
    ∀ (L : List (Nat × Nat)) (f a : Nat),
      parse m f a e = some L →
      ∀ b ∈ L, a ≤ b.1 ∧ b.1 < e ∧ b.2 = GET m b.1 := by
  intro L
  induction L with
  | nil => intro f a h b hb; simp at hb
  | cons c L ih =>
    intro f a h b hb
    obtain ⟨hc, hae, hsz, f0, rfl, hrest⟩ := parse_some_cons m f a e c L h
    cases hb with
    | head => rw [hc]; exact ⟨le_refl a, hae, rfl⟩
    | tail _ hb =>
      have := ih f0 (a + SIZE (GET m a)) hrest b hb
      exact ⟨by omega, this.2.1, this.2.2⟩

theorem parse_length (m : Mem) (e : Nat) :
    ∀ (L : List (Nat × Nat)) (f a : Nat),
      parse m f a e = some L → a + 8 * L.length ≤ e ∨ (L = [] ∧ a = e) := by
  intro L
  induction L with
  | nil =>
    intro f a h
    exact Or.inr ⟨rfl, parse_some_nil m f a e h⟩
  | cons c L ih =>
    intro f a h
    obtain ⟨hc, hae, hsz, f0, rfl, hrest⟩ := parse_some_cons m f a e c L h
    have h8 : 8 ∣ SIZE (GET m a) := SIZE_dvd8 _
    have hsz8 : 8 ≤ SIZE (GET m a) := by omega
    rcases ih f0 (a + SIZE (GET m a)) hrest with hle | ⟨hnil, hend⟩
    · left
      simp only [List.length_cons]
      omega
    · left
      rw [hnil]
      simp only [List.length_cons, List.length_nil]
      omega

end MemMgr
namespace MemMgr

/-! ## The scans compute `bestOfList` over the blocks they traverse -/

theorem scanImp_eq (m : Mem) (req : Nat) :
    ∀ (L : List (Nat × Nat)) (f fuel a e best sdiff : Nat),
      parse m f a e = some L → SIZE (GET m e) = 0 → L.length + 1 ≤ fuel →
      bf_scan_implicit m req fuel a best sdiff = some (bestOfList req L best sdiff) := by
  intro L
  induction L with
  | nil =>
    intro f fuel a e best sdiff hp hsent hfuel
    have ha : a = e := parse_some_nil m f a e hp
    cases fuel with
    | zero => omega
    | succ fuel =>
      rw [bf_scan_implicit, ha, if_pos hsent]
      rfl
  | cons b L ih =>
    intro f fuel a e best sdiff hp hsent hfuel
    obtain ⟨hb, hae, hsz, f0, rfl, hrest⟩ := parse_some_cons m f a e b L hp
    cases fuel with
    | zero => simp at hfuel
    | succ fuel =>
      subst hb
      have hfuel' : L.length + 1 ≤ fuel := by
        simp only [List.length_cons] at hfuel
        omega
      rw [bf_scan_implicit, if_neg hsz]
      simp only [bestOfList]
      by_cases hfit : STATUS (GET m a) = FREE ∧ req ≤ SIZE (GET m a)
      · rw [if_pos hfit, if_pos (show fitB req (a, GET m a) from hfit)]
        by_cases hd0 : SIZE (GET m a) - req = 0
        · rw [if_pos hd0, if_pos hd0]
        · rw [if_neg hd0, if_neg hd0]
          by_cases hlt : SIZE (GET m a) - req < sdiff
          · rw [if_pos hlt, if_pos hlt]
            exact ih f0 fuel (a + SIZE (GET m a)) e a (SIZE (GET m a) - req)
              hrest hsent hfuel'
          · rw [if_neg hlt, if_neg hlt]
            exact ih f0 fuel (a + SIZE (GET m a)) e best sdiff hrest hsent hfuel'
      · rw [if_neg hfit, if_neg (show ¬fitB req (a, GET m a) from hfit)]
        exact ih f0 fuel (a + SIZE (GET m a)) e best sdiff hrest hsent hfuel'

theorem scanExp_eq (m : Mem) (req : Nat) :
    ∀ (C : List Nat) (fuel hd best sdiff : Nat),
      chain m hd C → (∀ a ∈ C, a ≠ NULL) → C.length + 1 ≤ fuel →
      bf_scan_explicit m req fuel hd best sdiff =
        some (bestOfList req (C.map fun x => (x, GET m x)) best sdiff) := by
  intro C
  induction C with
  | nil =>
    intro fuel hd best sdiff hch hnn hfuel
    cases fuel with
    | zero => omega
    | succ fuel =>
      have h0 : hd = NULL := hch
      rw [bf_scan_explicit, if_pos h0]
      rfl
  | cons c C ih =>
    intro fuel hd best sdiff hch hnn hfuel
    cases fuel with
    | zero => simp at hfuel
    | succ fuel =>
      obtain ⟨heq, hch'⟩ := hch
      have hfuel' : C.length + 1 ≤ fuel := by
        simp only [List.length_cons] at hfuel
        omega
      have hnn' : ∀ a ∈ C, a ≠ NULL := fun a ha => hnn a (List.mem_cons_of_mem c ha)
      rw [heq]
      rw [bf_scan_explicit, if_neg (hnn c (List.mem_cons_self c C))]
      simp only [List.map, bestOfList]
      by_cases hfit : STATUS (GET m c) = FREE ∧ req ≤ SIZE (GET m c)
      · rw [if_pos hfit, if_pos (show fitB req (c, GET m c) from hfit)]
        by_cases hd0 : SIZE (GET m c) - req = 0
        · rw [if_pos hd0, if_pos hd0]
        · rw [if_neg hd0, if_neg hd0]
          by_cases hlt : SIZE (GET m c) - req < sdiff
          · rw [if_pos hlt, if_pos hlt]
            exact ih fuel (GET m (c + TYPE_SIZE)) c (SIZE (GET m c) - req) hch' hnn' hfuel'
          · rw [if_neg hlt, if_neg hlt]
            exact ih fuel (GET m (c + TYPE_SIZE)) best sdiff hch' hnn' hfuel'
      · rw [if_neg hfit, if_neg (show ¬fitB req (c, GET m c) from hfit)]
        exact ih fuel (GET m (c + TYPE_SIZE)) best sdiff hch' hnn' hfuel'

end MemMgr
namespace MemMgr

/-! ## Properties of the best-fit specification `firstMin` -/

theorem firstMin_isSome (req : Nat) :
    ∀ (L : List (Nat × Nat)) (b : Nat × Nat), b ∈ L → fitB req b →
      ∃ c, firstMin req L = some c := by
  intro L
  induction L with
  | nil => intro b h; simp at h
  | cons y L ih =>
    intro b hb hfb
    rw [firstMin]
    by_cases hfy : fitB req y
    · rw [if_pos hfy]
      cases firstMin req L with
      | none => exact ⟨y, rfl⟩
      | some d =>
        by_cases h2 : SIZE d.2 < SIZE y.2
        · exact ⟨d, if_pos h2⟩
        · exact ⟨y, if_neg h2⟩
    · rw [if_neg hfy]
      cases hb with
      | head => exact absurd hfb hfy
      | tail _ hb => exact ih b hb hfb

theorem firstMin_mem (req : Nat) :
    ∀ (L : List (Nat × Nat)) (c : Nat × Nat),
      firstMin req L = some c → c ∈ L ∧ fitB req c := by
  intro L
  induction L with
  | nil => intro c h; simp [firstMin] at h
  | cons b L ih =>
    intro c h
    rw [firstMin] at h
    by_cases hfb : fitB req b
    · rw [if_pos hfb] at h
      cases hfm : firstMin req L with
      | none =>
        rw [hfm] at h
        have h' : some b = some c := h
        cases h'
        exact ⟨List.mem_cons_self b L, hfb⟩
      | some d =>
        rw [hfm] at h
        have h' : (if SIZE d.2 < SIZE b.2 then some d else some b) = some c := h
        by_cases hlt : SIZE d.2 < SIZE b.2
        · rw [if_pos hlt] at h'
          cases h'
          have := ih c hfm
          exact ⟨List.mem_cons_of_mem b this.1, this.2⟩
        · rw [if_neg hlt] at h'
          cases h'
          exact ⟨List.mem_cons_self b L, hfb⟩
    · rw [if_neg hfb] at h
      have := ih c h
      exact ⟨List.mem_cons_of_mem b this.1, this.2⟩

theorem firstMin_min (req : Nat) :
    ∀ (L : List (Nat × Nat)) (c : Nat × Nat),
      firstMin req L = some c → ∀ b ∈ L, fitB req b → SIZE c.2 ≤ SIZE b.2 := by
  intro L
  induction L with
  | nil => intro c h; simp [firstMin] at h
  | cons b L ih =>
    intro c h x hx hfx
    rw [firstMin] at h
    by_cases hfb : fitB req b
    · rw [if_pos hfb] at h
      cases hfm : firstMin req L with
      | none =>
        rw [hfm] at h
        have h' : some b = some c := h
        cases h'
        cases hx with
        | head => exact le_refl _
        | tail _ hx =>
          obtain ⟨d, hd⟩ := firstMin_isSome req L x hx hfx
          rw [hd] at hfm
          exact absurd hfm (by simp)
      | some d =>
        rw [hfm] at h
        have h' : (if SIZE d.2 < SIZE b.2 then some d else some b) = some c := h
        cases hx with
        | head =>
          by_cases hlt : SIZE d.2 < SIZE b.2
          · rw [if_pos hlt] at h'
            cases h'
            omega
          · rw [if_neg hlt] at h'
            cases h'
            exact le_refl _
        | tail _ hx =>
          have hdx := ih d hfm x hx hfx
          by_cases hlt : SIZE d.2 < SIZE b.2
          · rw [if_pos hlt] at h'
            cases h'
            exact hdx
          · rw [if_neg hlt] at h'
            cases h'
            omega
    · rw [if_neg hfb] at h
      cases hx with
      | head => exact absurd hfx hfb
      | tail _ hx => exact ih c h x hx hfx

theorem firstMin_cons_notfit (req : Nat) (c : Nat × Nat) (L : List (Nat × Nat))
    (h : ¬fitB req c) : firstMin req (c :: L) = firstMin req L := by
  rw [firstMin, if_neg h]

theorem firstMin_first (req : Nat) :
    ∀ (L : List (Nat × Nat)) (c : Nat × Nat),
      firstMin req L = some c →
      ∃ L1 L2, L = L1 ++ c :: L2 ∧ ∀ b ∈ L1, fitB req b → SIZE c.2 < SIZE b.2 := by
  intro L
  induction L with
  | nil => intro c h; simp [firstMin] at h
  | cons b L ih =>
    intro c h
    rw [firstMin] at h
    by_cases hfb : fitB req b
    · rw [if_pos hfb] at h
      cases hfm : firstMin req L with
      | none =>
        rw [hfm] at h
        have h' : some b = some c := h
        cases h'
        exact ⟨[], L, rfl, by simp⟩
      | some d =>
        rw [hfm] at h
        have h' : (if SIZE d.2 < SIZE b.2 then some d else some b) = some c := h
        by_cases hlt : SIZE d.2 < SIZE b.2
        · rw [if_pos hlt] at h'
          cases h'
          obtain ⟨L1, L2, hsplit, hpre⟩ := ih c hfm
          refine ⟨b :: L1, L2, by simp [hsplit], ?_⟩
          intro x hx hfx
          cases hx with
          | head => exact hlt
          | tail _ hx => exact hpre x hx hfx
        · rw [if_neg hlt] at h'
          cases h'
          exact ⟨[], L, rfl, by simp⟩
    · rw [if_neg hfb] at h
      obtain ⟨L1, L2, hsplit, hpre⟩ := ih c h
      refine ⟨b :: L1, L2, by simp [hsplit], ?_⟩
      intro x hx hfx
      cases hx with
      | head => exact absurd hfx hfb
      | tail _ hx => exact hpre x hx hfx

end MemMgr
namespace MemMgr

/-! ## The accumulator scan computes `firstMin` -/

theorem bestOf_nofit (req : Nat) :
    ∀ (L : List (Nat × Nat)), firstMin req L = none →
      ∀ best sdiff, bestOfList req L best sdiff = best := by
  intro L
  induction L with
  | nil => intro _ best sdiff; rfl
  | cons b L ih =>
    intro h best sdiff
    by_cases hfb : fitB req b
    · exfalso
      obtain ⟨c, hc⟩ := firstMin_isSome req (b :: L) b (List.mem_cons_self b L) hfb
      rw [hc] at h
      simp at h
    · rw [firstMin_cons_notfit req b L hfb] at h
      rw [bestOfList, if_neg hfb]
      exact ih h best sdiff

theorem firstMin_exact_head (req : Nat) (b : Nat × Nat) (L : List (Nat × Nat))
    (hfb : fitB req b) (hsz : SIZE b.2 = req) : firstMin req (b :: L) = some b := by
  rw [firstMin, if_pos hfb]
  cases hfm : firstMin req L with
  | none => rfl
  | some d =>
    have hd := firstMin_mem req L d hfm
    have hnlt : ¬(SIZE d.2 < SIZE b.2) := by
      have := hd.2.2
      omega
    show (if SIZE d.2 < SIZE b.2 then some d else some b) = some b
    rw [if_neg hnlt]

theorem firstMin_switch (req : Nat) (b c : Nat × Nat) (L : List (Nat × Nat))
    (hfb : fitB req b) (hfc : fitB req c) (hlt : SIZE c.2 < SIZE b.2) :
    firstMin req (b :: c :: L) = firstMin req (c :: L) := by
  obtain ⟨d, hd⟩ := firstMin_isSome req (c :: L) c (List.mem_cons_self c L) hfc
  have hmin := firstMin_min req (c :: L) d hd c (List.mem_cons_self c L) hfc
  rw [firstMin, if_pos hfb, hd]
  show (if SIZE d.2 < SIZE b.2 then some d else some b) = some d
  rw [if_pos (by omega)]

theorem firstMin_drop (req : Nat) (b c : Nat × Nat) (L : List (Nat × Nat))
    (hfb : fitB req b) (hfc : fitB req c) (hle : SIZE b.2 ≤ SIZE c.2) :
    firstMin req (b :: c :: L) = firstMin req (b :: L) := by
  cases hfm : firstMin req L with
  | none =>
    have hcl : firstMin req (c :: L) = some c := by
      rw [firstMin, if_pos hfc, hfm]
    rw [firstMin, if_pos hfb, hcl]
    show (if SIZE c.2 < SIZE b.2 then some c else some b) = firstMin req (b :: L)
    rw [if_neg (by omega), firstMin, if_pos hfb, hfm]
  | some d =>
    by_cases hdc : SIZE d.2 < SIZE c.2
    · have hcl : firstMin req (c :: L) = some d := by
        rw [firstMin, if_pos hfc, hfm]
        show (if SIZE d.2 < SIZE c.2 then some d else some c) = some d
        rw [if_pos hdc]
      rw [firstMin, if_pos hfb, hcl]
      show (if SIZE d.2 < SIZE b.2 then some d else some b) = firstMin req (b :: L)
      rw [firstMin, if_pos hfb, hfm]
    · have hcl : firstMin req (c :: L) = some c := by
        rw [firstMin, if_pos hfc, hfm]
        show (if SIZE d.2 < SIZE c.2 then some d else some c) = some c
        rw [if_neg hdc]
      rw [firstMin, if_pos hfb, hcl]
      show (if SIZE c.2 < SIZE b.2 then some c else some b) = firstMin req (b :: L)
      rw [if_neg (by omega), firstMin, if_pos hfb, hfm]
      show some b = (if SIZE d.2 < SIZE b.2 then some d else some b)
      rw [if_neg (by omega)]

theorem firstMin_mid_notfit (req : Nat) (b c : Nat × Nat) (L : List (Nat × Nat))
    (hfc : ¬fitB req c) : firstMin req (b :: c :: L) = firstMin req (b :: L) := by
  rw [firstMin, firstMin_cons_notfit req c L hfc]
  rw [show firstMin req (b :: L) =
    (if fitB req b then
      match firstMin req L with
      | none => some b
      | some c => if SIZE c.2 < SIZE b.2 then some c else some b
     else firstMin req L) from rfl]

theorem bestOf_acc (req : Nat) :
    ∀ (L : List (Nat × Nat)) (b : Nat × Nat), fitB req b → req < SIZE b.2 →
      bestOfList req L b.1 (SIZE b.2 - req) =
        (((firstMin req (b :: L)).map Prod.fst).getD NULL) := by
  intro L
  induction L with
  | nil =>
    intro b hfb _
    rw [bestOfList, firstMin, if_pos hfb]
    rfl
  | cons c L ih =>
    intro b hfb hblt
    by_cases hfc : fitB req c
    · by_cases hd0 : SIZE c.2 - req = 0
      · have hsz : SIZE c.2 = req := by
          have := hfc.2
          omega
        rw [bestOfList, if_pos hfc, if_pos hd0]
        rw [firstMin_switch req b c L hfb hfc (by omega),
          firstMin_exact_head req c L hfc hsz]
        rfl
      · by_cases hlt : SIZE c.2 - req < SIZE b.2 - req
        · rw [bestOfList, if_pos hfc, if_neg hd0, if_pos hlt]
          rw [ih c hfc (by have := hfc.2; omega)]
          rw [firstMin_switch req b c L hfb hfc (by have := hfc.2; omega)]
        · rw [bestOfList, if_pos hfc, if_neg hd0, if_neg hlt]
          rw [ih b hfb hblt]
          rw [firstMin_drop req b c L hfb hfc (by have := hfc.2; omega)]
    · rw [bestOfList, if_neg hfc, ih b hfb hblt,
        firstMin_mid_notfit req b c L hfc]

theorem bestOf_eq (req : Nat) :
    ∀ (L : List (Nat × Nat)),
      bestOfList req L NULL (WORD_MOD - 1) =
        (((firstMin req L).map Prod.fst).getD NULL) := by
  intro L
  induction L with
  | nil => rfl
  | cons b L ih =>
    by_cases hfb : fitB req b
    · by_cases hd0 : SIZE b.2 - req = 0
      · have hsz : SIZE b.2 = req := by
          have := hfb.2
          omega
        rw [bestOfList, if_pos hfb, if_pos hd0, firstMin_exact_head req b L hfb hsz]
        rfl
      · have hlt : SIZE b.2 - req < WORD_MOD - 1 := by
          have h1 := SIZE_le b.2
          have h2 : (8:Nat) ≤ WORD_MOD := by norm_num [WORD_MOD]
          omega
        rw [bestOfList, if_pos hfb, if_neg hd0, if_pos hlt]
        exact bestOf_acc req L b hfb (by have := hfb.2; omega)
    · rw [bestOfList, if_neg hfb, ih, firstMin_cons_notfit req b L hfb]

theorem bestOf_truncate (req : Nat) (b : Nat × Nat)
    (hfree : STATUS b.2 = FREE) (hsz : SIZE b.2 = req) :
    ∀ (L1 L2 : List (Nat × Nat)) (best sdiff : Nat),
      bestOfList req (L1 ++ b :: L2) best sdiff = bestOfList req (L1 ++ [b]) best sdiff := by
  intro L1
  induction L1 with
  | nil =>
    intro L2 best sdiff
    have hfb : fitB req b := ⟨hfree, by omega⟩
    simp only [List.nil_append]
    rw [bestOfList, bestOfList, if_pos hfb, if_pos hfb, if_pos (by omega), if_pos (by omega)]
  | cons x L1 ih =>
    intro L2 best sdiff
    simp only [List.cons_append]
    rw [bestOfList, bestOfList]
    by_cases hfx : fitB req x
    · rw [if_pos hfx, if_pos hfx]
      by_cases hd0 : SIZE x.2 - req = 0
      · rw [if_pos hd0, if_pos hd0]
      · rw [if_neg hd0, if_neg hd0]
        by_cases hlt : SIZE x.2 - req < sdiff
        · rw [if_pos hlt, if_pos hlt]
          exact ih L2 x.1 (SIZE x.2 - req)
        · rw [if_neg hlt, if_neg hlt]
          exact ih L2 best sdiff
    · rw [if_neg hfx, if_neg hfx]
      exact ih L2 best sdiff

end MemMgr
namespace MemMgr

/-! ## Chains are functional and duplicate-free -/

theorem chain_suffix (m : Mem) :
    ∀ (U V : List Nat) (hd a : Nat), chain m hd (U ++ a :: V) → chain m a (a :: V) := by
  intro U
  induction U with
  | nil =>
    intro V hd a h
    obtain ⟨heq, h2⟩ := h
    exact ⟨rfl, h2⟩
  | cons u U ih =>
    intro V hd a h
    exact ih V (GET m (u + TYPE_SIZE)) a h.2

theorem chain_fn (m : Mem) :
    ∀ (C1 C2 : List Nat) (hd : Nat), (∀ a ∈ C1, a ≠ NULL) → (∀ a ∈ C2, a ≠ NULL) →
      chain m hd C1 → chain m hd C2 → C1 = C2 := by
  intro C1
  induction C1 with
  | nil =>
    intro C2 hd _ hnn2 h1 h2
    cases C2 with
    | nil => rfl
    | cons c C2 =>
      exfalso
      have hdn : hd = NULL := h1
      exact hnn2 c (List.mem_cons_self c C2) (h2.1 ▸ hdn ▸ rfl)
  | cons c C1 ih =>
    intro C2 hd hnn1 hnn2 h1 h2
    cases C2 with
    | nil =>
      exfalso
      have hdn : hd = NULL := h2
      exact hnn1 c (List.mem_cons_self c C1) (h1.1 ▸ hdn ▸ rfl)
    | cons d C2 =>
      have hcd : c = d := h1.1.symm.trans h2.1
      subst hcd
      have := ih C2 (GET m (c + TYPE_SIZE))
        (fun a ha => hnn1 a (List.mem_cons_of_mem c ha))
        (fun a ha => hnn2 a (List.mem_cons_of_mem c ha)) h1.2 h2.2
      rw [this]

theorem chain_nodup (m : Mem) :
    ∀ (C : List Nat) (hd : Nat), chain m hd C → (∀ a ∈ C, a ≠ NULL) → C.Nodup := by
  intro C
  induction C with
  | nil => intro hd _ _; exact List.nodup_nil
  | cons c C ih =>
    intro hd h hnn
    rw [List.nodup_cons]
    refine ⟨?_, ih (GET m (c + TYPE_SIZE)) h.2 (fun a ha => hnn a (List.mem_cons_of_mem c ha))⟩
    intro hc
    obtain ⟨U, V, hUV⟩ := List.append_of_mem hc
    have hsub : chain m c (c :: V) := by
      rw [hUV] at h
      exact chain_suffix m (c :: U) V hd c h
    have hCV : C = V := by
      apply chain_fn m C V (GET m (c + TYPE_SIZE))
        (fun a ha => hnn a (List.mem_cons_of_mem c ha))
        (fun a ha => hnn a (List.mem_cons_of_mem c (hUV ▸ List.mem_append_right U
          (List.mem_cons_of_mem c ha))))
        h.2 hsub.2
    rw [hUV] at hCV
    have hl := congrArg List.length hCV
    simp only [List.length_append, List.length_cons] at hl
    omega

/-! ## The searches return directly when the scan finds a block -/

theorem imp_search_found (s : MM) (req : Nat) (L : List (Nat × Nat)) (c : Nat × Nat)
    (hInv : Inv s L) (hfm : firstMin req L = some c) :
    bf_get_free_block_implicit s req (retry_fuel s) = some (some c.1, s) := by
  obtain ⟨hparse, hI2, hI3, hI4, hsent, hpos⟩ := hInv
  have hlen : L.length + 1 ≤ scan_fuel s := by
    rcases parse_length s.mem s.heap_end L _ s.heap_start hparse with hle | ⟨hnil, _⟩
    · have hdm := Nat.div_add_mod (s.heap_end - s.heap_start) 8
      have hmod : (s.heap_end - s.heap_start) % 8 < 8 := Nat.mod_lt _ (by norm_num)
      unfold scan_fuel
      omega
    · rw [hnil]
      simp only [List.length_nil]
      unfold scan_fuel
      omega
  have hscan := scanImp_eq s.mem req L _ (scan_fuel s) s.heap_start s.heap_end NULL
    (WORD_MOD - 1) hparse hsent hlen
  rw [bestOf_eq req L, hfm] at hscan
  have hscan' : bf_scan_implicit s.mem req (scan_fuel s) s.heap_start NULL (WORD_MOD - 1) =
      some c.1 := hscan
  have hcf := parse_mem_facts s.mem s.heap_end L _ s.heap_start hparse c
    (firstMin_mem req L c hfm).1
  have hcne : c.1 ≠ NULL := by
    have := hcf.1
    unfold NULL
    omega
  have hrf : retry_fuel s = ((s.brk_max - s.heap_end) / CHUNKSIZE + 1) + 1 := rfl
  rw [hrf, bf_get_free_block_implicit, hscan']
  show (if c.1 = NULL then _ else some (some c.1, s)) = some (some c.1, s)
  rw [if_neg hcne]

theorem exp_search_found (s : MM) (req : Nat) (L : List (Nat × Nat)) (C : List Nat)
    (c : Nat × Nat) (hInv : Inv s L)
    (hchain : chain s.mem s.exp_freelist_head C)
    (hCL : ∀ a ∈ C, ∃ b ∈ L, b.1 = a ∧ STATUS b.2 = FREE)
    (hfm : firstMin req (C.map fun x => (x, GET s.mem x)) = some c) :
    bf_get_free_block_explicit s req (retry_fuel s) = some (some c.1, s) := by
  obtain ⟨hparse, hI2, hI3, hI4, hsent, hpos⟩ := hInv
  have hnn : ∀ a ∈ C, a ≠ NULL := by
    intro a ha
    obtain ⟨b, hbL, hba, _⟩ := hCL a ha
    have := (parse_mem_facts s.mem s.heap_end L _ s.heap_start hparse b hbL).1
    unfold NULL
    omega
  have hsub : C ⊆ L.map Prod.fst := by
    intro a ha
    obtain ⟨b, hbL, hba, _⟩ := hCL a ha
    rw [← hba]
    exact List.mem_map_of_mem Prod.fst hbL
  have hClen : C.length ≤ L.length := by
    have := ((chain_nodup s.mem C _ hchain hnn).subperm hsub).length_le
    simpa using this
  have hlen : C.length + 1 ≤ scan_fuel s := by
    rcases parse_length s.mem s.heap_end L _ s.heap_start hparse with hle | ⟨hnil, _⟩
    · have hdm := Nat.div_add_mod (s.heap_end - s.heap_start) 8
      have hmod : (s.heap_end - s.heap_start) % 8 < 8 := Nat.mod_lt _ (by norm_num)
      unfold scan_fuel
      omega
    · rw [hnil] at hClen
      simp only [List.length_nil] at hClen
      unfold scan_fuel
      omega
  have hscan := scanExp_eq s.mem req C (scan_fuel s) s.exp_freelist_head NULL
    (WORD_MOD - 1) hchain hnn hlen
  rw [bestOf_eq req _, hfm] at hscan
  have hscan' : bf_scan_explicit s.mem req (scan_fuel s) s.exp_freelist_head NULL
      (WORD_MOD - 1) = some c.1 := hscan
  have hcmem := (firstMin_mem req _ c hfm).1
  obtain ⟨x, hxC, hxc⟩ := List.mem_map.mp hcmem
  have hcne : c.1 ≠ NULL := by
    rw [← hxc]
    exact hnn x hxC
  have hrf : retry_fuel s = ((s.brk_max - s.heap_end) / CHUNKSIZE + 1) + 1 := rfl
  rw [hrf, bf_get_free_block_explicit, hscan']
  show (if c.1 = NULL then _ else some (some c.1, s)) = some (some c.1, s)
  rw [if_neg hcne]

end MemMgr
namespace MemMgr

/-- C1: whenever the heap invariants hold, the explicit free list contains
exactly the free blocks, and some free block fits the (total-size) request
`req`, both the implicit search and the explicit search return without
growing the heap a fitting free block of minimal size among all fitting
free blocks — on a tie the first one in their traversal order (heap order
for the implicit scan, list order for the explicit scan) — and an
exact-fit candidate terminates either scan immediately: the scan result
ignores everything after it. -/
theorem C1_best_fit (s : MM) (req : Nat) (L : List (Nat × Nat)) (C : List Nat)
    (hInv : Inv s L)
    (hchain : chain s.mem s.exp_freelist_head C)
    (hCL : ∀ a ∈ C, ∃ b ∈ L, b.1 = a ∧ STATUS b.2 = FREE)
    (hLC : ∀ b ∈ L, STATUS b.2 = FREE → b.1 ∈ C)
    (hex : ∃ b ∈ L, fitB req b) :
    (∃ c, firstMin req L = some c ∧
        bf_get_free_block_implicit s req (retry_fuel s) = some (some c.1, s) ∧
        c ∈ L ∧ fitB req c ∧
        (∀ b ∈ L, fitB req b → SIZE c.2 ≤ SIZE b.2) ∧
        (∃ U V, L = U ++ c :: V ∧ ∀ b ∈ U, fitB req b → SIZE c.2 < SIZE b.2)) ∧
    (∃ d, firstMin req (C.map fun x => (x, GET s.mem x)) = some d ∧
        bf_get_free_block_explicit s req (retry_fuel s) = some (some d.1, s) ∧
        d.1 ∈ C ∧ fitB req d ∧
        (∀ b ∈ L, fitB req b → SIZE d.2 ≤ SIZE b.2) ∧
        (∃ U V, C.map (fun x => (x, GET s.mem x)) = U ++ d :: V ∧
          ∀ b ∈ U, fitB req b → SIZE d.2 < SIZE b.2)) ∧
    (∀ (b : Nat × Nat) (U V : List (Nat × Nat)),
        STATUS b.2 = FREE → SIZE b.2 = req → L = U ++ b :: V →
        bf_scan_implicit s.mem req (scan_fuel s) s.heap_start NULL (WORD_MOD - 1) =
          some (bestOfList req (U ++ [b]) NULL (WORD_MOD - 1))) ∧
    (∀ (b : Nat × Nat) (U V : List (Nat × Nat)),
        STATUS b.2 = FREE → SIZE b.2 = req →
        C.map (fun x => (x, GET s.mem x)) = U ++ b :: V →
        bf_scan_explicit s.mem req (scan_fuel s) s.exp_freelist_head NULL (WORD_MOD - 1) =
          some (bestOfList req (U ++ [b]) NULL (WORD_MOD - 1))) := by
  obtain ⟨b0, hb0L, hb0f⟩ := hex
  obtain ⟨hparse, hI2, hI3, hI4, hsent, hpos⟩ := hInv
  obtain ⟨c, hc⟩ := firstMin_isSome req L b0 hb0L hb0f
  have hcimp := imp_search_found s req L c ⟨hparse, hI2, hI3, hI4, hsent, hpos⟩ hc
  have hcmem := firstMin_mem req L c hc
  have hcmin := firstMin_min req L c hc
  have hcfirst := firstMin_first req L c hc
  have hb0C : b0.1 ∈ C := hLC b0 hb0L hb0f.1
  have hb0w : b0.2 = GET s.mem b0.1 :=
    (parse_mem_facts s.mem s.heap_end L _ s.heap_start hparse b0 hb0L).2.2
  have hb0m : (b0.1, GET s.mem b0.1) ∈ C.map (fun x => (x, GET s.mem x)) :=
    List.mem_map_of_mem _ hb0C
  have hb0f' : fitB req (b0.1, GET s.mem b0.1) := by
    rw [← hb0w]
    exact hb0f
  obtain ⟨d, hd⟩ := firstMin_isSome req _ (b0.1, GET s.mem b0.1) hb0m hb0f'
  have hdexp := exp_search_found s req L C d ⟨hparse, hI2, hI3, hI4, hsent, hpos⟩ hchain hCL hd
  have hdmem := firstMin_mem req _ d hd
  have hdmin := firstMin_min req _ d hd
  have hdfirst := firstMin_first req _ d hd
  obtain ⟨x, hxC, hxd⟩ := List.mem_map.mp hdmem.1
  have hd1C : d.1 ∈ C := by
    rw [← hxd]
    exact hxC
  have hdminL : ∀ b ∈ L, fitB req b → SIZE d.2 ≤ SIZE b.2 := by
    intro b hbL hbf
    have hbC : b.1 ∈ C := hLC b hbL hbf.1
    have hbw : b.2 = GET s.mem b.1 :=
      (parse_mem_facts s.mem s.heap_end L _ s.heap_start hparse b hbL).2.2
    have hbm : (b.1, GET s.mem b.1) ∈ C.map (fun x => (x, GET s.mem x)) :=
      List.mem_map_of_mem _ hbC
    have hle := hdmin (b.1, GET s.mem b.1) hbm (by rw [← hbw]; exact hbf)
    rw [← hbw] at hle
    exact hle
  have hlen : L.length + 1 ≤ scan_fuel s := by
    rcases parse_length s.mem s.heap_end L _ s.heap_start hparse with hle | ⟨hnil, _⟩
    · have hdm := Nat.div_add_mod (s.heap_end - s.heap_start) 8
      have hmod : (s.heap_end - s.heap_start) % 8 < 8 := Nat.mod_lt _ (by norm_num)
      unfold scan_fuel
      omega
    · rw [hnil]
      simp only [List.length_nil]
      unfold scan_fuel
      omega
  have hnn : ∀ a ∈ C, a ≠ NULL := by
    intro a ha
    obtain ⟨b, hbL, hba, _⟩ := hCL a ha
    have := (parse_mem_facts s.mem s.heap_end L _ s.heap_start hparse b hbL).1
    unfold NULL
    omega
  have hsub : C ⊆ L.map Prod.fst := by
    intro a ha
    obtain ⟨b, hbL, hba, _⟩ := hCL a ha
    rw [← hba]
    exact List.mem_map_of_mem Prod.fst hbL
  have hClen : C.length ≤ L.length := by
    have := ((chain_nodup s.mem C _ hchain hnn).subperm hsub).length_le
    simpa using this
  have hlenC : C.length + 1 ≤ scan_fuel s := by omega
  refine ⟨⟨c, hc, hcimp, hcmem.1, hcmem.2, hcmin, hcfirst⟩,
    ⟨d, hd, hdexp, hd1C, hdmem.2, hdminL, hdfirst⟩, ?_, ?_⟩
  · intro b U V hfree hsz hLUV
    have hscan := scanImp_eq s.mem req L _ (scan_fuel s) s.heap_start s.heap_end NULL
      (WORD_MOD - 1) hparse hsent hlen
    rw [hLUV] at hscan
    rw [hscan, bestOf_truncate req b hfree hsz U V NULL (WORD_MOD - 1)]
  · intro b U V hfree hsz hmap
    have hscan := scanExp_eq s.mem req C (scan_fuel s) s.exp_freelist_head NULL
      (WORD_MOD - 1) hchain hnn hlenC
    rw [hmap] at hscan
    rw [hscan, bestOf_truncate req b hfree hsz U V NULL (WORD_MOD - 1)]

end MemMgr
namespace MemMgr

/-- Witness for C1 on the concrete heap `s_c1` (free blocks of sizes 32 at
address 32 and 64 at address 96, free list `[96, 32]`): a request of 48
bytes makes both searches return the size-64 block at 96, skipping the
too-small size-32 block the implicit scan meets first. -/
theorem C1_best_fit_witness :
    Inv s_c1 [(32, 32), (64, 33), (96, 64), (160, 65345)] ∧
    bf_get_free_block_implicit s_c1 48 (retry_fuel s_c1) = some (some 96, s_c1) ∧
    bf_get_free_block_explicit s_c1 48 (retry_fuel s_c1) = some (some 96, s_c1) := by
  have h := C1_best_fit s_c1 48 [(32, 32), (64, 33), (96, 64), (160, 65345)] [96, 32]
    (by decide) (by decide) (by decide) (by decide) ⟨(96, 64), by decide, by decide⟩
  obtain ⟨⟨c, hc, hci, -⟩, ⟨d, hd, hde, -⟩, -⟩ := h
  have hcv : firstMin 48 [(32, 32), (64, 33), (96, 64), (160, 65345)] = some ((96, 64) : Nat × Nat) := by
    decide
  rw [hcv] at hc
  have hdv : firstMin 48 ([96, 32].map fun x => (x, GET s_c1.mem x)) = some ((96, 64) : Nat × Nat) := by
    decide
  rw [hdv] at hd
  have hc' : ((96, 64) : Nat × Nat) = c := Option.some.inj hc
  have hd' : ((96, 64) : Nat × Nat) = d := Option.some.inj hd
  rw [← hc'] at hci
  rw [← hd'] at hde
  exact ⟨by decide, hci, hde⟩

end MemMgr
namespace MemMgr

/-! ## Further parse facts: framing, block ends, alignment, separation -/

theorem SIZE_id (v : Nat) (h8 : 8 ∣ v) (hlt : v < WORD_MOD) : SIZE v = v := by
  unfold SIZE
  rw [Nat.mod_eq_of_lt hlt]
  omega

theorem parse_frame (e : Nat) (m m' : Mem) (hagree : ∀ x, x < e → GET m' x = GET m x) :
    ∀ (f a : Nat), parse m' f a e = parse m f a e
  | 0, _ => rfl
  | f + 1, a => by
    rw [parse, parse]
    by_cases h1 : a = e
    · rw [if_pos h1, if_pos h1]
    · rw [if_neg h1, if_neg h1]
      by_cases h2 : e < a
      · rw [if_pos h2, if_pos h2]
      · rw [if_neg h2, if_neg h2]
        have hx : GET m' a = GET m a := hagree a (by omega)
        have hrec := parse_frame e m m' hagree f (a + SIZE (GET m a))
        simp only [hx, hrec]

theorem parse_block_end (m : Mem) (e : Nat) :
    ∀ (L : List (Nat × Nat)) (f a : Nat), parse m f a e = some L →
      ∀ b ∈ L, b.1 + SIZE b.2 ≤ e := by
  intro L
  induction L with
  | nil => intro f a h b hb; simp at hb
  | cons c L ih =>
    intro f a h b hb
    obtain ⟨hc, hae, hsz, f0, rfl, hrest⟩ := parse_some_cons m f a e c L h
    cases hb with
    | head =>
      have hend : a + SIZE (GET m a) ≤ e := by
        rcases parse_length m e L f0 (a + SIZE (GET m a)) hrest with hle | ⟨_, hend⟩ <;> omega
      rw [hc]
      exact hend
    | tail _ hb => exact ih f0 _ hrest b hb

theorem parse_aligned (m : Mem) (e : Nat) :
    ∀ (L : List (Nat × Nat)) (f a : Nat), parse m f a e = some L →
      (∀ b ∈ L, 32 ∣ SIZE b.2) → ∀ b ∈ L, 32 ∣ (b.1 - a) := by
  intro L
  induction L with
  | nil => intro f a h hd b hb; simp at hb
  | cons c L ih =>
    intro f a h hd b hb
    obtain ⟨hc, hae, hsz, f0, rfl, hrest⟩ := parse_some_cons m f a e c L h
    cases hb with
    | head =>
      rw [hc]
      simp only [Nat.sub_self]
      exact ⟨0, rfl⟩
    | tail _ hb =>
      have h1 := ih f0 _ hrest (fun b' hb' => hd b' (List.mem_cons_of_mem c hb')) b hb
      have h2 : 32 ∣ SIZE (GET m a) := by
        have := hd c (List.mem_cons_self c L)
        rw [hc] at this
        exact this
      have h3 : a + SIZE (GET m a) ≤ b.1 := (parse_mem_facts m e L f0 _ hrest b hb).1
      omega

theorem parse_sep (m : Mem) (e : Nat) :
    ∀ (L : List (Nat × Nat)) (f a : Nat), parse m f a e = some L →
      ∀ b ∈ L, ∀ b' ∈ L, b.1 < b'.1 → b.1 + SIZE b.2 ≤ b'.1 := by
  intro L
  induction L with
  | nil => intro f a h b hb; simp at hb
  | cons c L ih =>
    intro f a h b hb b' hb' hlt
    obtain ⟨hc, hae, hsz, f0, rfl, hrest⟩ := parse_some_cons m f a e c L h
    have hc1 : c.1 = a := by rw [hc]
    have hc2 : c.2 = GET m a := by rw [hc]
    cases hb with
    | head =>
      cases hb' with
      | head => omega
      | tail _ hb' =>
        have hge := (parse_mem_facts m e L f0 _ hrest b' hb').1
        rw [hc1, hc2]
        omega
    | tail _ hb =>
      cases hb' with
      | head =>
        have hge := (parse_mem_facts m e L f0 _ hrest b hb).1
        omega
      | tail _ hb' => exact ih f0 _ hrest b hb b' hb' hlt

theorem parse_interior_not_start (m : Mem) (e : Nat) (L : List (Nat × Nat)) (f a0 : Nat)
    (hparse : parse m f a0 e = some L) (hI4 : I4 L) (b : Nat × Nat) (hb : b ∈ L)
    (d : Nat) (hd1 : 0 < d) (hd2 : d < 32) :
    ∀ b' ∈ L, b.1 + d ≠ b'.1 := by
  intro b' hb'
  have h4 := hI4 b hb
  have h4' := hI4 b' hb'
  rcases Nat.lt_trichotomy b.1 b'.1 with hlt | heq | hgt
  · have := parse_sep m e L f a0 hparse b hb b' hb' hlt
    omega
  · omega
  · have := parse_sep m e L f a0 hparse b' hb' b hb hgt
    omega

theorem parse_snoc (m : Mem) (e e2 : Nat) (hlt : e < e2) (hsz : SIZE (GET m e) ≠ 0)
    (hend : e + SIZE (GET m e) = e2) :
    ∀ (L : List (Nat × Nat)) (f a : Nat), parse m f a e = some L →
      parse m (f + 1) a e2 = some (L ++ [(e, GET m e)]) := by
  intro L
  induction L with
  | nil =>
    intro f a h
    have ha : a = e := parse_some_nil m f a e h
    have hf : f ≠ 0 := by
      intro h0
      rw [h0] at h
      simp [parse] at h
    obtain ⟨f0, rfl⟩ : ∃ f0, f = f0 + 1 := ⟨f - 1, by omega⟩
    rw [ha]
    have htail : parse m (f0 + 1) (e + SIZE (GET m e)) e2 = some [] := by
      rw [hend]
      exact parse_nil_intro m f0 e2
    simpa using parse_cons_intro m (f0 + 1) e e2 [] hlt hsz htail
  | cons c L ih =>
    intro f a h
    obtain ⟨hc, hae, hsz', f0, rfl, hrest⟩ := parse_some_cons m f a e c L h
    have := ih f0 _ hrest
    rw [hc]
    exact parse_cons_intro m (f0 + 1) a e2 (L ++ [(e, GET m e)]) (by omega) hsz' this

theorem parse_init (m : Mem) (e : Nat) :
    ∀ (L0 : List (Nat × Nat)) (b : Nat × Nat) (f a : Nat),
      parse m f a e = some (L0 ++ [b]) →
      parse m f a b.1 = some L0 ∧ b.1 + SIZE b.2 = e ∧ b.2 = GET m b.1 ∧ b.1 < e := by
  intro L0
  induction L0 with
  | nil =>
    intro b f a h
    simp only [List.nil_append] at h
    obtain ⟨hb, hae, hsz, f0, rfl, hrest⟩ := parse_some_cons m f a e b [] h
    have hend : a + SIZE (GET m a) = e := parse_some_nil m f0 _ e hrest
    have hb1 : b.1 = a := by rw [hb]
    have hb2 : b.2 = GET m a := by rw [hb]
    refine ⟨?_, by rw [hb1, hb2]; exact hend, by rw [hb2, hb1], by omega⟩
    rw [hb1]
    exact parse_nil_intro m f0 a
  | cons c L0 ih =>
    intro b f a h
    obtain ⟨hc, hae, hsz, f0, rfl, hrest⟩ := parse_some_cons m f a e c (L0 ++ [b]) h
    obtain ⟨hp0, hbe, hbw, hblt⟩ := ih b f0 _ hrest
    have hble : a + SIZE (GET m a) ≤ b.1 :=
      (parse_mem_facts m e (L0 ++ [b]) f0 _ hrest b
        (List.mem_append_right L0 (List.mem_cons_self b []))).1
    refine ⟨?_, hbe, hbw, hblt⟩
    rw [hc]
    exact parse_cons_intro m f0 a b.1 L0 (by omega) hsz hp0

/-! ## Invariant I3 under appending and the adjacency it encodes -/

theorem I3_append_left : ∀ (U V : List (Nat × Nat)), I3 (U ++ V) → I3 U
  | [], _, _ => trivial
  | [_], _, _ => trivial
  | x :: y :: U, V, h => ⟨h.1, I3_append_left (y :: U) V h.2⟩

theorem I3_adj (x y : Nat × Nat) : ∀ (U V : List (Nat × Nat)),
    I3 (U ++ x :: y :: V) → ¬(STATUS x.2 = FREE ∧ STATUS y.2 = FREE)
  | [], _, h => h.1
  | [_], _, h => h.2.1
  | _ :: u' :: U, V, h => I3_adj x y (u' :: U) V h.2

theorem I3_snoc (b : Nat × Nat) : ∀ (M : List (Nat × Nat)), I3 M →
    (∀ (L0 : List (Nat × Nat)) (c : Nat × Nat), M = L0 ++ [c] →
      ¬(STATUS c.2 = FREE ∧ STATUS b.2 = FREE)) →
    I3 (M ++ [b])
  | [], _, _ => trivial
  | [x], _, hlast => ⟨hlast [] x rfl, trivial⟩
  | x :: y :: M, h, hlast =>
    ⟨h.1, I3_snoc b (y :: M) h.2 (fun L0 c heq => hlast (x :: L0) c (by rw [heq]; rfl))⟩

/-- A chain is insensitive to memory changes outside the members' `next`
words. -/
theorem chain_congr (m m' : Mem) :
    ∀ (C : List Nat) (hd : Nat),
      (∀ a ∈ C, GET m' (a + TYPE_SIZE) = GET m (a + TYPE_SIZE)) →
      chain m hd C → chain m' hd C
  | [], _, _, h => h
  | a :: C, _, hag, h =>
    ⟨h.1, by
      rw [hag a (List.mem_cons_self a C)]
      exact chain_congr m m' C (GET m (a + TYPE_SIZE))
        (fun x hx => hag x (List.mem_cons_of_mem a hx)) h.2⟩

end MemMgr
namespace MemMgr

/-! ## Heap extension preserves the parse -/

theorem parse_extend_new (m : Mem) (hs he : Nat) (L : List (Nat × Nat)) (f : Nat)
    (hparse : parse m f hs he = some L) :
    parse (PUT (PUT (PUT m (he + CHUNKSIZE) 0x1) he (PACK CHUNKSIZE FREE))
        (he + CHUNKSIZE - TYPE_SIZE) (PACK CHUNKSIZE FREE)) (f + 1) hs (he + CHUNKSIZE) =
      some (L ++ [(he, CHUNKSIZE)]) := by
  have hCK : CHUNKSIZE = 65536 := rfl
  have hTS : TYPE_SIZE = 8 := rfl
  have hframe : ∀ x, x < he →
      GET (PUT (PUT (PUT m (he + CHUNKSIZE) 0x1) he (PACK CHUNKSIZE FREE))
        (he + CHUNKSIZE - TYPE_SIZE) (PACK CHUNKSIZE FREE)) x = GET m x := by
    intro x hx
    rw [GET_PUT_ne _ _ _ _ (by omega), GET_PUT_ne _ _ _ _ (by omega),
      GET_PUT_ne _ _ _ _ (by omega)]
  have hp0 := parse_frame he m _ hframe f hs
  rw [hparse] at hp0
  have hhe : GET (PUT (PUT (PUT m (he + CHUNKSIZE) 0x1) he (PACK CHUNKSIZE FREE))
      (he + CHUNKSIZE - TYPE_SIZE) (PACK CHUNKSIZE FREE)) he = CHUNKSIZE := by
    rw [GET_PUT_ne _ _ _ _ (by omega), GET_PUT_same]
    decide
  have hSZc : SIZE CHUNKSIZE = CHUNKSIZE := by decide
  have hsnoc := parse_snoc _ he (he + CHUNKSIZE) (by omega)
    (by rw [hhe, hSZc]; omega) (by rw [hhe, hSZc]) L f hs hp0
  rw [hhe] at hsnoc
  exact hsnoc

theorem parse_extend_fuse (m : Mem) (hs he : Nat) (L0 : List (Nat × Nat)) (bl : Nat × Nat)
    (f : Nat) (hparse : parse m f hs he = some (L0 ++ [bl]))
    (hW : SIZE bl.2 + CHUNKSIZE < WORD_MOD) :
    parse (PUT (PUT (PUT m (he + CHUNKSIZE) 0x1) bl.1 (PACK (SIZE bl.2 + CHUNKSIZE) FREE))
        (he + CHUNKSIZE - TYPE_SIZE) (PACK (SIZE bl.2 + CHUNKSIZE) FREE)) (f + 1) hs
        (he + CHUNKSIZE) =
      some (L0 ++ [(bl.1, SIZE bl.2 + CHUNKSIZE)]) := by
  have hCK : CHUNKSIZE = 65536 := rfl
  have hTS : TYPE_SIZE = 8 := rfl
  obtain ⟨hp0, hend, hbw, hblt⟩ := parse_init m he L0 bl f hs hparse
  have h8 : 8 ∣ SIZE bl.2 + CHUNKSIZE := by
    have := SIZE_dvd8 bl.2
    omega
  have hpk : PACK (SIZE bl.2 + CHUNKSIZE) FREE = SIZE bl.2 + CHUNKSIZE := by
    have := pack_eq_add (SIZE bl.2 + CHUNKSIZE) FREE h8 (by norm_num [FREE])
    simpa [FREE] using this
  have hframe : ∀ x, x < bl.1 →
      GET (PUT (PUT (PUT m (he + CHUNKSIZE) 0x1) bl.1 (PACK (SIZE bl.2 + CHUNKSIZE) FREE))
        (he + CHUNKSIZE - TYPE_SIZE) (PACK (SIZE bl.2 + CHUNKSIZE) FREE)) x = GET m x := by
    intro x hx
    rw [GET_PUT_ne _ _ _ _ (by omega), GET_PUT_ne _ _ _ _ (by omega),
      GET_PUT_ne _ _ _ _ (by omega)]
  have hp0' := parse_frame bl.1 m _ hframe f hs
  rw [hp0] at hp0'
  have hget : GET (PUT (PUT (PUT m (he + CHUNKSIZE) 0x1) bl.1
      (PACK (SIZE bl.2 + CHUNKSIZE) FREE)) (he + CHUNKSIZE - TYPE_SIZE)
      (PACK (SIZE bl.2 + CHUNKSIZE) FREE)) bl.1 = SIZE bl.2 + CHUNKSIZE := by
    rw [GET_PUT_ne _ _ _ _ (by omega), GET_PUT_same, hpk, Nat.mod_eq_of_lt hW]
  have hSZ : SIZE (SIZE bl.2 + CHUNKSIZE) = SIZE bl.2 + CHUNKSIZE :=
    SIZE_id _ h8 hW
  have hsnoc := parse_snoc _ bl.1 (he + CHUNKSIZE) (by omega)
    (by rw [hget, hSZ]; omega) (by rw [hget, hSZ]; omega) L0 f hs hp0'
  rw [hget] at hsnoc
  exact hsnoc

end MemMgr
namespace MemMgr

/-- A successful `mm_sbrk` preserves the heap invariants: the new chunk is
appended as a free block, fused with a trailing free block when there is
one.  Free blocks keep their addresses, and memory below the old heap end
is untouched except at block headers. -/
theorem mm_sbrk_preserves (s s' : MM) (L : List (Nat × Nat))
    (hInv : Inv s L)
    (hpro : STATUS (GET s.mem (s.heap_start - TYPE_SIZE)) = ALLOC)
    (hhs : TYPE_SIZE ≤ s.heap_start)
    (hbm : s.brk_max < WORD_MOD)
    (h : mm_sbrk s = some s') :
    ∃ L', Inv s' L' ∧
      STATUS (GET s'.mem (s'.heap_start - TYPE_SIZE)) = ALLOC ∧
      (∀ b ∈ L, STATUS b.2 = FREE → ∃ b' ∈ L', b'.1 = b.1 ∧ STATUS b'.2 = FREE) ∧
      (∀ x, x < s.heap_end → (∀ b ∈ L, x ≠ b.1) → GET s'.mem x = GET s.mem x) := by
  obtain ⟨hparse, hI2, hI3, hI4, hsent, hpos⟩ := hInv
  have hfields := mm_sbrk_fields s s' h
  have hCK : CHUNKSIZE = 65536 := rfl
  have hBS : BS = 32 := rfl
  have hTS : TYPE_SIZE = 8 := rfl
  have hshe : s.heap_start ≤ s.heap_end := by
    rcases parse_length s.mem s.heap_end L _ s.heap_start hparse with h1 | ⟨_, h2⟩ <;> omega
  unfold mm_sbrk at h
  by_cases hcap : s.brk_max < s.heap_end + BS + CHUNKSIZE
  · rw [if_pos hcap] at h
    exact absurd h (by simp)
  · rw [if_neg hcap] at h
    have hheW : s.heap_end + CHUNKSIZE < WORD_MOD := by omega
    have hg1 : GET (PUT s.mem (s.heap_end + CHUNKSIZE) 0x1) (s.heap_end - TYPE_SIZE) =
        GET s.mem (s.heap_end - TYPE_SIZE) := GET_PUT_ne _ _ _ _ (by omega)
    by_cases hfree : STATUS (GET (PUT s.mem (s.heap_end + CHUNKSIZE) 0x1)
        (s.heap_end - TYPE_SIZE)) = FREE
    · -- fused branch: the last block is free and absorbs the new chunk
      simp only [if_pos hfree] at h
      have hx := Option.some.inj h
      rcases List.eq_nil_or_concat' L with rfl | ⟨L0, bl, hL⟩
      · exfalso
        have hnil : s.heap_start = s.heap_end :=
          parse_some_nil s.mem _ s.heap_start s.heap_end hparse
        rw [hg1, ← hnil, hpro] at hfree
        exact absurd hfree (by decide)
      subst hL
      obtain ⟨hp0, hend, hbw, hblt⟩ :=
        parse_init s.mem s.heap_end L0 bl _ s.heap_start hparse
      have hblmem : bl ∈ L0 ++ [bl] := List.mem_append_right L0 (List.mem_cons_self bl [])
      have hble : s.heap_start ≤ bl.1 :=
        (parse_mem_facts s.mem s.heap_end _ _ s.heap_start hparse bl hblmem).1
      have hfoot : GET s.mem (s.heap_end - TYPE_SIZE) = bl.2 := by
        have hf := hI2 bl hblmem
        rw [hend] at hf
        exact hf
      have hszpos := hI4 bl hblmem
      have hstbl : STATUS bl.2 = FREE := by
        rw [hg1, hfoot] at hfree
        exact hfree
      have hW : SIZE bl.2 + CHUNKSIZE < WORD_MOD := by omega
      have h8' : 8 ∣ SIZE bl.2 + CHUNKSIZE := by
        have := SIZE_dvd8 bl.2
        omega
      have hSZn : SIZE (SIZE bl.2 + CHUNKSIZE) = SIZE bl.2 + CHUNKSIZE := SIZE_id _ h8' hW
      have hpkn : PACK (SIZE bl.2 + CHUNKSIZE) FREE % WORD_MOD = SIZE bl.2 + CHUNKSIZE := by
        have hpk := pack_eq_add (SIZE bl.2 + CHUNKSIZE) FREE h8' (by norm_num [FREE])
        rw [hpk]
        have hz : SIZE bl.2 + CHUNKSIZE + FREE = SIZE bl.2 + CHUNKSIZE := by norm_num [FREE]
        rw [hz, Nat.mod_eq_of_lt hW]
      have hval : GET (PUT s.mem (s.heap_end + CHUNKSIZE) 0x1) (s.heap_end - TYPE_SIZE) =
          bl.2 := by
        rw [hg1, hfoot]
      have hmem0 : PUT (PUT (PUT s.mem (s.heap_end + CHUNKSIZE) 0x1)
          (s.heap_end - TYPE_SIZE - SIZE (GET (PUT s.mem (s.heap_end + CHUNKSIZE) 0x1)
            (s.heap_end - TYPE_SIZE)) + TYPE_SIZE)
          (PACK (SIZE (GET (PUT s.mem (s.heap_end + CHUNKSIZE) 0x1)
            (s.heap_end - TYPE_SIZE)) + CHUNKSIZE) FREE))
          (s.heap_end + CHUNKSIZE - TYPE_SIZE)
          (PACK (SIZE (GET (PUT s.mem (s.heap_end + CHUNKSIZE) 0x1)
            (s.heap_end - TYPE_SIZE)) + CHUNKSIZE) FREE) = s'.mem :=
        congrArg MM.mem hx
      rw [hval] at hmem0
      rw [show s.heap_end - TYPE_SIZE - SIZE bl.2 + TYPE_SIZE = bl.1 from by omega] at hmem0
      have hfuse := parse_extend_fuse s.mem s.heap_start s.heap_end L0 bl
        ((s.heap_end - s.heap_start) / 8 + 1) hparse hW
      refine ⟨L0 ++ [(bl.1, SIZE bl.2 + CHUNKSIZE)], ⟨?_, ?_, ?_, ?_, ?_, ?_⟩, ?_, ?_, ?_⟩
      · unfold parseHeap
        rw [hfields.1, hfields.2.2.2.2, ← hmem0]
        exact parse_mono _ _ _ _ _ _ hfuse (by omega)
      · intro b hb
        rcases List.mem_append.mp hb with hbL | hbR
        · have hbe := parse_block_end s.mem bl.1 L0 _ s.heap_start hp0 b hbL
          have hb4 := hI4 b (List.mem_append_left [bl] hbL)
          rw [← hmem0, GET_PUT_ne _ _ _ _ (by omega), GET_PUT_ne _ _ _ _ (by omega),
            GET_PUT_ne _ _ _ _ (by omega)]
          exact hI2 b (List.mem_append_left [bl] hbL)
        · have hb1 : b = (bl.1, SIZE bl.2 + CHUNKSIZE) := by simpa using hbR
          subst hb1
          show GET s'.mem (bl.1 + SIZE (SIZE bl.2 + CHUNKSIZE) - TYPE_SIZE) =
            SIZE bl.2 + CHUNKSIZE
          rw [hSZn, show bl.1 + (SIZE bl.2 + CHUNKSIZE) - TYPE_SIZE =
            s.heap_end + CHUNKSIZE - TYPE_SIZE from by omega]
          rw [← hmem0, GET_PUT_same, hpkn]
      · apply I3_snoc (bl.1, SIZE bl.2 + CHUNKSIZE) L0 (I3_append_left L0 [bl] hI3)
        intro L1 d heq
        rw [heq, List.append_assoc] at hI3
        have hadj := I3_adj d bl L1 [] hI3
        intro hcon
        exact hadj ⟨hcon.1, hstbl⟩
      · intro b hb
        rcases List.mem_append.mp hb with hbL | hbR
        · exact hI4 b (List.mem_append_left [bl] hbL)
        · have hb1 : b = (bl.1, SIZE bl.2 + CHUNKSIZE) := by simpa using hbR
          subst hb1
          show 32 ∣ SIZE (SIZE bl.2 + CHUNKSIZE) ∧ 0 < SIZE (SIZE bl.2 + CHUNKSIZE)
          rw [hSZn]
          omega
      · rw [hfields.2.2.2.2, ← hmem0]
        rw [GET_PUT_ne _ _ _ _ (by omega), GET_PUT_ne _ _ _ _ (by omega), GET_PUT_same]
        decide
      · rw [hfields.1]
        exact hpos
      · rw [hfields.1, ← hmem0]
        rw [GET_PUT_ne _ _ _ _ (by omega), GET_PUT_ne _ _ _ _ (by omega),
          GET_PUT_ne _ _ _ _ (by omega)]
        exact hpro
      · intro b hb hbf
        rcases List.mem_append.mp hb with hbL | hbR
        · exact ⟨b, List.mem_append_left _ hbL, rfl, hbf⟩
        · have hb1 : b = bl := by simpa using hbR
          refine ⟨(bl.1, SIZE bl.2 + CHUNKSIZE),
            List.mem_append_right _ (List.mem_cons_self _ []), by rw [hb1], ?_⟩
          show (SIZE bl.2 + CHUNKSIZE) % 8 = FREE
          have h1 := SIZE_dvd8 bl.2
          have h2 : FREE = 0 := rfl
          omega
      · intro x hx hxs
        rw [← hmem0, GET_PUT_ne _ _ _ _ (by omega), GET_PUT_ne _ _ _ _ (hxs bl hblmem),
          GET_PUT_ne _ _ _ _ (by omega)]
    · -- non-fused branch: a fresh free block of one chunk is appended
      simp only [if_neg hfree] at h
      have hx := Option.some.inj h
      have hmem0 : PUT (PUT (PUT s.mem (s.heap_end + CHUNKSIZE) 0x1) s.heap_end
          (PACK CHUNKSIZE FREE)) (s.heap_end + CHUNKSIZE - TYPE_SIZE)
          (PACK CHUNKSIZE FREE) = s'.mem :=
        congrArg MM.mem hx
      have hnew := parse_extend_new s.mem s.heap_start s.heap_end L
        ((s.heap_end - s.heap_start) / 8 + 1) hparse
      refine ⟨L ++ [(s.heap_end, CHUNKSIZE)], ⟨?_, ?_, ?_, ?_, ?_, ?_⟩, ?_, ?_, ?_⟩
      · unfold parseHeap
        rw [hfields.1, hfields.2.2.2.2, ← hmem0]
        exact parse_mono _ _ _ _ _ _ hnew (by omega)
      · intro b hb
        rcases List.mem_append.mp hb with hbL | hbR
        · have hbe := parse_block_end s.mem s.heap_end L _ s.heap_start hparse b hbL
          have hb4 := hI4 b hbL
          rw [← hmem0, GET_PUT_ne _ _ _ _ (by omega), GET_PUT_ne _ _ _ _ (by omega),
            GET_PUT_ne _ _ _ _ (by omega)]
          exact hI2 b hbL
        · have hb1 : b = (s.heap_end, CHUNKSIZE) := by simpa using hbR
          subst hb1
          show GET s'.mem (s.heap_end + SIZE CHUNKSIZE - TYPE_SIZE) = CHUNKSIZE
          rw [show SIZE CHUNKSIZE = CHUNKSIZE from by decide]
          rw [← hmem0, GET_PUT_same]
          decide
      · apply I3_snoc (s.heap_end, CHUNKSIZE) L hI3
        intro L1 c heq
        intro hcon
        apply hfree
        rw [hg1]
        have hcm : c ∈ L := by
          rw [heq]
          exact List.mem_append_right _ (List.mem_cons_self _ [])
        have hcf := hI2 c hcm
        obtain ⟨_, hce, _, _⟩ := parse_init s.mem s.heap_end L1 c _ s.heap_start
          (by rw [← heq]; exact hparse)
        rw [hce] at hcf
        rw [hcf]
        exact hcon.1
      · intro b hb
        rcases List.mem_append.mp hb with hbL | hbR
        · exact hI4 b hbL
        · have hb1 : b = (s.heap_end, CHUNKSIZE) := by simpa using hbR
          subst hb1
          show 32 ∣ SIZE CHUNKSIZE ∧ 0 < SIZE CHUNKSIZE
          decide
      · rw [hfields.2.2.2.2, ← hmem0]
        rw [GET_PUT_ne _ _ _ _ (by omega), GET_PUT_ne _ _ _ _ (by omega), GET_PUT_same]
        decide
      · rw [hfields.1]
        exact hpos
      · rw [hfields.1, ← hmem0]
        rw [GET_PUT_ne _ _ _ _ (by omega), GET_PUT_ne _ _ _ _ (by omega),
          GET_PUT_ne _ _ _ _ (by omega)]
        exact hpro
      · intro b hb hbf
        exact ⟨b, List.mem_append_left _ hb, rfl, hbf⟩
      · intro x hx hxs
        rw [← hmem0, GET_PUT_ne _ _ _ _ (by omega), GET_PUT_ne _ _ _ _ (by omega),
          GET_PUT_ne _ _ _ _ (by omega)]

end MemMgr
namespace MemMgr

/-- A non-null scan result is a fitting free block of the parsed heap. -/
theorem bestOf_found (s : MM) (req : Nat) (L : List (Nat × Nat))
    (hInv : Inv s L) (hne : bestOfList req L NULL (WORD_MOD - 1) ≠ NULL) :
    (bestOfList req L NULL (WORD_MOD - 1), GET s.mem (bestOfList req L NULL (WORD_MOD - 1))) ∈ L ∧
    STATUS (GET s.mem (bestOfList req L NULL (WORD_MOD - 1))) = FREE ∧
    req ≤ SIZE (GET s.mem (bestOfList req L NULL (WORD_MOD - 1))) := by
  obtain ⟨hparse, hI2, hI3, hI4, hsent, hpos⟩ := hInv
  have heq := bestOf_eq req L
  cases hfm : firstMin req L with
  | none =>
    rw [hfm] at heq
    exact absurd heq (by simpa using hne)
  | some c =>
    rw [hfm] at heq
    have hc1 : bestOfList req L NULL (WORD_MOD - 1) = c.1 := heq
    obtain ⟨hcm, hcf⟩ := firstMin_mem req L c hfm
    have hcw : c.2 = GET s.mem c.1 :=
      (parse_mem_facts s.mem s.heap_end L _ s.heap_start hparse c hcm).2.2
    rw [hc1, ← hcw]
    obtain ⟨hcs, hcsz⟩ := hcf
    refine ⟨?_, hcs, hcsz⟩
    have : (c.1, c.2) = c := rfl
    rw [this]
    exact hcm

/-- Soundness of the implicit search through any number of heap
extensions: a returned block is a fitting free block of the final,
invariant-preserving heap. -/
theorem imp_search_sound :
    ∀ (rfuel : Nat) (s : MM) (asize bp : Nat) (s1 : MM) (L : List (Nat × Nat)),
      Inv s L →
      STATUS (GET s.mem (s.heap_start - TYPE_SIZE)) = ALLOC →
      TYPE_SIZE ≤ s.heap_start →
      s.brk_max < WORD_MOD →
      bf_get_free_block_implicit s asize rfuel = some (some bp, s1) →
      ∃ L', Inv s1 L' ∧ (bp, GET s1.mem bp) ∈ L' ∧
        STATUS (GET s1.mem bp) = FREE ∧ asize ≤ SIZE (GET s1.mem bp) ∧
        s1.heap_start = s.heap_start := by
  intro rfuel
  induction rfuel with
  | zero =>
    intro s asize bp s1 L _ _ _ _ hrun
    simp [bf_get_free_block_implicit] at hrun
  | succ n ih =>
    intro s asize bp s1 L hInv hpro hhs hbm hrun
    obtain ⟨hparse, hI2, hI3, hI4, hsent, hpos⟩ := hInv
    have hlen : L.length + 1 ≤ scan_fuel s := by
      rcases parse_length s.mem s.heap_end L _ s.heap_start hparse with hle | ⟨hnil, _⟩
      · have hdm := Nat.div_add_mod (s.heap_end - s.heap_start) 8
        have hmod : (s.heap_end - s.heap_start) % 8 < 8 := Nat.mod_lt _ (by norm_num)
        unfold scan_fuel
        omega
      · rw [hnil]
        simp only [List.length_nil]
        unfold scan_fuel
        omega
    have hscan := scanImp_eq s.mem asize L _ (scan_fuel s) s.heap_start s.heap_end NULL
      (WORD_MOD - 1) hparse hsent hlen
    rw [bf_get_free_block_implicit, hscan] at hrun
    simp only at hrun
    by_cases hb : bestOfList asize L NULL (WORD_MOD - 1) = NULL
    · rw [if_pos hb] at hrun
      cases hsb : mm_sbrk s with
      | none =>
        rw [hsb] at hrun
        exact absurd (Option.some.inj hrun) (by simp)
      | some s2 =>
        rw [hsb] at hrun
        obtain ⟨L2, hInv2, hpro2, _, _⟩ := mm_sbrk_preserves s s2 L
          ⟨hparse, hI2, hI3, hI4, hsent, hpos⟩ hpro hhs hbm hsb
        have hfields := mm_sbrk_fields s s2 hsb
        obtain ⟨L', hi, hm, hst, hsz, hstart⟩ := ih s2 asize bp s1 L2 hInv2 hpro2
          (by rw [hfields.1]; exact hhs) (by rw [hfields.2.2.2.1]; exact hbm) hrun
        exact ⟨L', hi, hm, hst, hsz, hstart.trans hfields.1⟩
    · rw [if_neg hb] at hrun
      have hinj := Option.some.inj hrun
      have h1 : some (bestOfList asize L NULL (WORD_MOD - 1)) = some bp :=
        congrArg Prod.fst hinj
      have h2 : s = s1 := congrArg Prod.snd hinj
      have hbp := Option.some.inj h1
      obtain ⟨hmem, hst, hsz⟩ := bestOf_found s asize L
        ⟨hparse, hI2, hI3, hI4, hsent, hpos⟩ hb
      rw [hbp] at hmem hst hsz
      exact ⟨L, by rw [← h2]; exact ⟨hparse, hI2, hI3, hI4, hsent, hpos⟩,
        by rw [← h2]; exact hmem, by rw [← h2]; exact hst, by rw [← h2]; exact hsz,
        by rw [← h2]⟩

end MemMgr
namespace MemMgr

/-- Soundness of the explicit search through any number of heap
extensions: the chain, its membership in the free blocks, and the link
sanity survive every `mm_sbrk`, and the returned block is a fitting free
chain member of the final heap. -/
theorem exp_search_sound :
    ∀ (rfuel : Nat) (s : MM) (asize bp : Nat) (s1 : MM) (L : List (Nat × Nat)) (C : List Nat),
      Inv s L →
      STATUS (GET s.mem (s.heap_start - TYPE_SIZE)) = ALLOC →
      TYPE_SIZE ≤ s.heap_start →
      s.brk_max < WORD_MOD →
      chain s.mem s.exp_freelist_head C →
      (∀ a ∈ C, ∃ b ∈ L, b.1 = a ∧ STATUS b.2 = FREE) →
      linksOk s.mem C →
      bf_get_free_block_explicit s asize rfuel = some (some bp, s1) →
      ∃ L' C', Inv s1 L' ∧ chain s1.mem s1.exp_freelist_head C' ∧
        (∀ a ∈ C', ∃ b ∈ L', b.1 = a ∧ STATUS b.2 = FREE) ∧
        linksOk s1.mem C' ∧ bp ∈ C' ∧
        (bp, GET s1.mem bp) ∈ L' ∧ STATUS (GET s1.mem bp) = FREE ∧
        asize ≤ SIZE (GET s1.mem bp) ∧ s1.heap_start = s.heap_start := by
  intro rfuel
  induction rfuel with
  | zero =>
    intro s asize bp s1 L C _ _ _ _ _ _ _ hrun
    simp [bf_get_free_block_explicit] at hrun
  | succ n ih =>
    intro s asize bp s1 L C hInv hpro hhs hbm hchain hCL hlinks hrun
    obtain ⟨hparse, hI2, hI3, hI4, hsent, hpos⟩ := hInv
    have hTS : TYPE_SIZE = 8 := rfl
    have hnn : ∀ a ∈ C, a ≠ NULL := by
      intro a ha
      obtain ⟨b, hbL, hba, _⟩ := hCL a ha
      have := (parse_mem_facts s.mem s.heap_end L _ s.heap_start hparse b hbL).1
      unfold NULL
      omega
    have hlen : L.length + 1 ≤ scan_fuel s := by
      rcases parse_length s.mem s.heap_end L _ s.heap_start hparse with hle | ⟨hnil, _⟩
      · have hdm := Nat.div_add_mod (s.heap_end - s.heap_start) 8
        have hmod : (s.heap_end - s.heap_start) % 8 < 8 := Nat.mod_lt _ (by norm_num)
        unfold scan_fuel
        omega
      · rw [hnil]
        simp only [List.length_nil]
        unfold scan_fuel
        omega
    have hsub : C ⊆ L.map Prod.fst := by
      intro a ha
      obtain ⟨b, hbL, hba, _⟩ := hCL a ha
      rw [← hba]
      exact List.mem_map_of_mem Prod.fst hbL
    have hClen : C.length ≤ L.length := by
      have := ((chain_nodup s.mem C _ hchain hnn).subperm hsub).length_le
      simpa using this
    have hlenC : C.length + 1 ≤ scan_fuel s := by omega
    have hscan := scanExp_eq s.mem asize C (scan_fuel s) s.exp_freelist_head NULL
      (WORD_MOD - 1) hchain hnn hlenC
    rw [bf_get_free_block_explicit, hscan] at hrun
    simp only at hrun
    by_cases hb : bestOfList asize (C.map fun x => (x, GET s.mem x)) NULL (WORD_MOD - 1) = NULL
    · rw [if_pos hb] at hrun
      cases hsb : mm_sbrk s with
      | none =>
        rw [hsb] at hrun
        exact absurd (Option.some.inj hrun) (by simp)
      | some s2 =>
        rw [hsb] at hrun
        obtain ⟨L2, hInv2, hpro2, hfreep, hframe⟩ := mm_sbrk_preserves s s2 L
          ⟨hparse, hI2, hI3, hI4, hsent, hpos⟩ hpro hhs hbm hsb
        have hfields := mm_sbrk_fields s s2 hsb
        have hCblock : ∀ a ∈ C, ∃ b ∈ L, b.1 = a ∧ STATUS b.2 = FREE ∧
            a + SIZE b.2 ≤ s.heap_end ∧ 32 ≤ SIZE b.2 := by
          intro a ha
          obtain ⟨b, hbL, hba, hbf⟩ := hCL a ha
          have hbe := parse_block_end s.mem s.heap_end L _ s.heap_start hparse b hbL
          have hb4 := hI4 b hbL
          exact ⟨b, hbL, hba, hbf, by omega, by omega⟩
        have hlink_frame : ∀ a ∈ C, ∀ d : Nat, 0 < d → d < 32 →
            GET s2.mem (a + d) = GET s.mem (a + d) := by
          intro a ha d hd1 hd2
          obtain ⟨b, hbL, hba, hbf, hbe, hb32⟩ := hCblock a ha
          apply hframe
          · omega
          · intro b' hb'
            have := parse_interior_not_start s.mem s.heap_end L _ s.heap_start hparse
              hI4 b hbL d hd1 hd2 b' hb'
            omega
        have hG8 : ∀ a ∈ C, GET s2.mem (a + TYPE_SIZE) = GET s.mem (a + TYPE_SIZE) := by
          intro a ha
          rw [hTS]
          exact hlink_frame a ha 8 (by omega) (by omega)
        have hG16 : ∀ a ∈ C, GET s2.mem (a + 2 * TYPE_SIZE) = GET s.mem (a + 2 * TYPE_SIZE) := by
          intro a ha
          rw [hTS]
          exact hlink_frame a ha 16 (by omega) (by omega)
        have hchain2 : chain s2.mem s2.exp_freelist_head C := by
          rw [hfields.2.2.1]
          exact chain_congr s.mem s2.mem C s.exp_freelist_head hG8 hchain
        have hCL2 : ∀ a ∈ C, ∃ b ∈ L2, b.1 = a ∧ STATUS b.2 = FREE := by
          intro a ha
          obtain ⟨b, hbL, hba, hbf⟩ := hCL a ha
          obtain ⟨b', hb', hb1, hb2⟩ := hfreep b hbL hbf
          exact ⟨b', hb', by rw [hb1, hba], hb2⟩
        have hlinks2 : linksOk s2.mem C := by
          intro a ha
          rw [hG8 a ha, hG16 a ha]
          exact hlinks a ha
        obtain ⟨L', C', hi, hch, hcl, hlk, hin, hm, hst, hsz, hstart⟩ :=
          ih s2 asize bp s1 L2 C hInv2 hpro2 (by rw [hfields.1]; exact hhs)
            (by rw [hfields.2.2.2.1]; exact hbm) hchain2 hCL2 hlinks2 hrun
        exact ⟨L', C', hi, hch, hcl, hlk, hin, hm, hst, hsz, hstart.trans hfields.1⟩
    · rw [if_neg hb] at hrun
      have hinj := Option.some.inj hrun
      have h1 : some (bestOfList asize (C.map fun x => (x, GET s.mem x)) NULL (WORD_MOD - 1)) =
          some bp := congrArg Prod.fst hinj
      have h2 : s = s1 := congrArg Prod.snd hinj
      have hbp := Option.some.inj h1
      have heq := bestOf_eq asize (C.map fun x => (x, GET s.mem x))
      cases hfm : firstMin asize (C.map fun x => (x, GET s.mem x)) with
      | none =>
        rw [hfm] at heq
        rw [hbp] at heq
        exact absurd heq (by
          intro hh
          exact hb (by rw [hbp]; simpa using hh))
      | some d =>
        rw [hfm] at heq
        have hd1 : bestOfList asize (C.map fun x => (x, GET s.mem x)) NULL (WORD_MOD - 1) =
            d.1 := heq
        obtain ⟨hdm, hdf⟩ := firstMin_mem asize _ d hfm
        obtain ⟨x, hxC, hxd⟩ := List.mem_map.mp hdm
        have hbpx : bp = x := by
          rw [← hbp, hd1, ← hxd]
        obtain ⟨b, hbL, hba, hbf⟩ := hCL x hxC
        have hbw : b.2 = GET s.mem b.1 :=
          (parse_mem_facts s.mem s.heap_end L _ s.heap_start hparse b hbL).2.2
        have hmem : (bp, GET s.mem bp) ∈ L := by
          rw [hbpx, ← hba, ← hbw]
          exact hbL
        have hgd : GET s.mem bp = d.2 := by
          rw [hbpx, ← hxd]
        refine ⟨L, C, by rw [← h2]; exact ⟨hparse, hI2, hI3, hI4, hsent, hpos⟩,
          by rw [← h2]; exact hchain, hCL,
          by rw [← h2]; exact hlinks, by rw [hbpx]; exact hxC,
          by rw [← h2]; exact hmem, ?_, ?_, by rw [← h2]⟩
        · rw [← h2, hgd]
          exact hdf.1
        · rw [← h2, hgd]
          exact hdf.2

end MemMgr
namespace MemMgr

/-- `split` writes nothing except the remainder block's two link words
and, when present, the next word of the old `prev` and the prev word of
the old `next`. -/
theorem split_frame (s : MM) (bp a : Nat)
    (h1 : a ≠ bp + SIZE (GET s.mem bp) + TYPE_SIZE)
    (h2 : a ≠ bp + SIZE (GET s.mem bp) + 2 * TYPE_SIZE)
    (hp : GET s.mem (bp + 2 * TYPE_SIZE) ≠ NULL →
      a ≠ GET s.mem (bp + 2 * TYPE_SIZE) + TYPE_SIZE)
    (hn : GET s.mem (bp + TYPE_SIZE) ≠ NULL →
      a ≠ GET s.mem (bp + TYPE_SIZE) + 2 * TYPE_SIZE) :
    GET (split s bp).mem a = GET s.mem a := by
  unfold split
  simp only
  rw [GET_PUT_ne _ _ _ _ h2, GET_PUT_ne _ _ _ _ h1]
  by_cases hnx : GET s.mem (bp + TYPE_SIZE) ≠ NULL
  · rw [if_pos hnx]
    by_cases hpv : GET s.mem (bp + 2 * TYPE_SIZE) = NULL
    · rw [if_pos hpv]
      simp only
      rw [GET_PUT_ne _ _ _ _ (hn hnx)]
    · rw [if_neg hpv]
      simp only
      rw [GET_PUT_ne _ _ _ _ (hn hnx), GET_PUT_ne _ _ _ _ (hp hpv)]
  · rw [if_neg hnx]
    by_cases hpv : GET s.mem (bp + 2 * TYPE_SIZE) = NULL
    · rw [if_pos hpv]
    · rw [if_neg hpv]
      simp only
      rw [GET_PUT_ne _ _ _ _ (hp hpv)]

/-- Soundness of the policy-dispatched search: the returned block is a
fitting free block of an invariant heap, and under the explicit policy
its link words point at free blocks (or are null). -/
theorem get_free_block_sound (s : MM) (asize bp : Nat) (s1 : MM) (L : List (Nat × Nat))
    (hInv : Inv s L)
    (hpro : STATUS (GET s.mem (s.heap_start - TYPE_SIZE)) = ALLOC)
    (hhs : TYPE_SIZE ≤ s.heap_start)
    (hbm : s.brk_max < WORD_MOD)
    (hexp : s.freelist_policy = .fp_Explicit → ∃ C, chain s.mem s.exp_freelist_head C ∧
      (∀ a ∈ C, ∃ b ∈ L, b.1 = a ∧ STATUS b.2 = FREE) ∧ linksOk s.mem C)
    (h : get_free_block s asize = some (some bp, s1)) :
    ∃ L', Inv s1 L' ∧ (bp, GET s1.mem bp) ∈ L' ∧
      STATUS (GET s1.mem bp) = FREE ∧ asize ≤ SIZE (GET s1.mem bp) ∧
      s1.heap_start = s.heap_start ∧
      (s.freelist_policy = .fp_Explicit →
        (GET s1.mem (bp + TYPE_SIZE) = NULL ∨
          ∃ b' ∈ L', b'.1 = GET s1.mem (bp + TYPE_SIZE)) ∧
        (GET s1.mem (bp + 2 * TYPE_SIZE) = NULL ∨
          ∃ b' ∈ L', b'.1 = GET s1.mem (bp + 2 * TYPE_SIZE))) := by
  unfold get_free_block at h
  cases hp : s.freelist_policy with
  | fp_Implicit =>
    rw [hp] at h
    obtain ⟨L', hi, hm, hst, hsz, hstart⟩ :=
      imp_search_sound _ s asize bp s1 L hInv hpro hhs hbm h
    exact ⟨L', hi, hm, hst, hsz, hstart, fun hc => absurd hc (by decide)⟩
  | fp_Explicit =>
    rw [hp] at h
    obtain ⟨C, hchain, hCL, hlinks⟩ := hexp hp
    obtain ⟨L', C', hi, hch, hcl, hlk, hin, hm, hst, hsz, hstart⟩ :=
      exp_search_sound _ s asize bp s1 L C hInv hpro hhs hbm hchain hCL hlinks h
    refine ⟨L', hi, hm, hst, hsz, hstart, fun _ => ⟨?_, ?_⟩⟩
    · rcases (hlk bp hin).1 with hnull | hmemC
      · exact Or.inl hnull
      · obtain ⟨b', hb', hb1, _⟩ := hcl _ hmemC
        exact Or.inr ⟨b', hb', hb1⟩
    · rcases (hlk bp hin).2 with hnull | hmemC
      · exact Or.inl hnull
      · obtain ⟨b', hb', hb1, _⟩ := hcl _ hmemC
        exact Or.inr ⟨b', hb', hb1⟩

end MemMgr
namespace MemMgr

/-- A (non-null) free-list link that points at a block of the parse never
lands `d` bytes before another block's header, for `0 < d < 32`. -/
theorem link_neq (s' : MM) (L' : List (Nat × Nat)) (bp v d : Nat)
    (hInv' : Inv s' L') (hm : (bp, GET s'.mem bp) ∈ L')
    (hv : v = NULL ∨ ∃ b' ∈ L', b'.1 = v) (hnz : v ≠ NULL)
    (hd1 : 0 < d) (hd2 : d < 32) :
    bp ≠ v + d := by
  rcases hv with h0 | ⟨b', hb', hb1⟩
  · exact absurd h0 hnz
  · obtain ⟨hparse', _, _, hI4', _, _⟩ := hInv'
    have hne : b'.1 + d ≠ bp :=
      parse_interior_not_start s'.mem s'.heap_end L' _ s'.heap_start hparse' hI4' b' hb'
        d hd1 hd2 (bp, GET s'.mem bp) hm
    omega

end MemMgr
namespace MemMgr
set_option maxHeartbeats 1600000 in
/-- What `mm_malloc` does once the search has chosen block `bp`: the block
fits, if it is not split the fit is exact, and the call returns the
payload pointer `bp + 8` with header `PACK asize ALLOC` written at `bp`.
The result variable `r` lets callers instantiate this with their own
hypothesis about `mm_malloc`'s outcome. -/
theorem malloc_after_search (s : MM) (n : Nat) (L : List (Nat × Nat)) (bp : Nat) (s' : MM)
    (r : Option (Except String (Option Nat × MM)))
    (hInv : Inv s L)
    (hpro : STATUS (GET s.mem (s.heap_start - TYPE_SIZE)) = ALLOC)
    (hhs : TYPE_SIZE ≤ s.heap_start)
    (hbm : s.brk_max < WORD_MOD)
    (h0 : 0 < n)
    (hexp : s.freelist_policy = .fp_Explicit → ∃ C, chain s.mem s.exp_freelist_head C ∧
      (∀ a ∈ C, ∃ b ∈ L, b.1 = a ∧ STATUS b.2 = FREE) ∧ linksOk s.mem C)
    (hgf : get_free_block s (malloc_asize n) = some (some bp, s'))
    (hr : mm_malloc s n = r) :
    malloc_asize n ≤ SIZE (GET s'.mem bp) ∧
    32 ∣ SIZE (GET s'.mem bp) ∧
    (¬ (malloc_asize n + BS ≤ SIZE (GET s'.mem bp)) →
      SIZE (GET s'.mem bp) = malloc_asize n) ∧
    8 ∣ (bp + TYPE_SIZE - s.heap_start) ∧
    ∃ s3, r = some (.ok (some (bp + TYPE_SIZE), s3)) ∧
      GET s3.mem bp = PACK (malloc_asize n) ALLOC := by
  have hge32 : 32 ≤ malloc_asize n := malloc_asize_ge_BS n
  have hTS : TYPE_SIZE = 8 := rfl
  have hBS : BS = 32 := rfl
  have h8a : 8 ∣ malloc_asize n := by
    have := malloc_asize_dvd32 n
    omega
  have h32a := malloc_asize_dvd32 n
  have haW : malloc_asize n < WORD_MOD := malloc_asize_lt n
  obtain ⟨L', hInv', hm, hst, hsz, hstart, hlinkf⟩ :=
    get_free_block_sound s (malloc_asize n) bp s' L hInv hpro hhs hbm hexp hgf
  have hflds := get_free_block_fields s (malloc_asize n) (some bp) s' hgf
  obtain ⟨hparse', hI2', hI3', hI4', hsent', hpos'⟩ := hInv'
  have hb4 : 32 ∣ SIZE (GET s'.mem bp) ∧ 0 < SIZE (GET s'.mem bp) :=
    hI4' (bp, GET s'.mem bp) hm
  have hbsW : SIZE (GET s'.mem bp) < WORD_MOD := SIZE_lt _
  have halign : 32 ∣ (bp - s'.heap_start) :=
    parse_aligned s'.mem s'.heap_end L' _ s'.heap_start hparse'
      (fun b hb => (hI4' b hb).1) (bp, GET s'.mem bp) hm
  have hbpge : s'.heap_start ≤ bp :=
    (parse_mem_facts s'.mem s'.heap_end L' _ s'.heap_start hparse'
      (bp, GET s'.mem bp) hm).1
  have hpk : PACK (malloc_asize n) ALLOC % WORD_MOD = PACK (malloc_asize n) ALLOC :=
    Nat.mod_eq_of_lt (pack_lt _ _ h8a haW (by decide))
  have hS1 : SIZE (GET (PUT s'.mem bp (PACK (malloc_asize n) ALLOC)) bp) =
      malloc_asize n := by
    rw [GET_PUT_same, hpk]
    exact SIZE_PACK _ _ h8a haW (by decide)
  refine ⟨hsz, hb4.1, by omega, by omega, ?_⟩
  simp only [mm_malloc] at hr
  rw [if_neg (show ¬(n = 0) from by omega)] at hr
  rw [show (if ALIGN n < BS then BS else ALIGN n) = malloc_asize n from rfl] at hr
  rw [hgf] at hr
  simp only at hr
  by_cases hsplit : malloc_asize n + BS ≤ SIZE (GET s'.mem bp)
  · rw [if_pos hsplit] at hr
    rw [hS1] at hr
    have hS2 : SIZE (GET (PUT (PUT s'.mem bp (PACK (malloc_asize n) ALLOC))
        (bp + malloc_asize n - TYPE_SIZE) (PACK (malloc_asize n) ALLOC)) bp) =
        malloc_asize n := by
      rw [GET_PUT_ne _ _ _ _ (by omega), GET_PUT_same, hpk]
      exact SIZE_PACK _ _ h8a haW (by decide)
    rw [hS2] at hr
    have hrem8 : 8 ∣ (SIZE (GET s'.mem bp) - malloc_asize n) := by
      have := malloc_asize_dvd32 n
      omega
    have hremW : SIZE (GET s'.mem bp) - malloc_asize n < WORD_MOD := by omega
    have hremge : 32 ≤ SIZE (GET s'.mem bp) - malloc_asize n := by omega
    have hpkr : PACK (SIZE (GET s'.mem bp) - malloc_asize n) FREE =
        SIZE (GET s'.mem bp) - malloc_asize n := by
      rw [pack_eq_add _ _ hrem8 (by decide)]
      have hF : FREE = 0 := rfl
      omega
    have hS3 : SIZE (GET (PUT (PUT (PUT s'.mem bp (PACK (malloc_asize n) ALLOC))
        (bp + malloc_asize n - TYPE_SIZE) (PACK (malloc_asize n) ALLOC))
        (bp + malloc_asize n) (PACK (SIZE (GET s'.mem bp) - malloc_asize n) FREE))
        (bp + malloc_asize n)) = SIZE (GET s'.mem bp) - malloc_asize n := by
      rw [GET_PUT_same, hpkr, Nat.mod_eq_of_lt hremW]
      exact SIZE_id _ hrem8 hremW
    rw [hS3] at hr
    set M : Mem := PUT (PUT (PUT (PUT s'.mem bp (PACK (malloc_asize n) ALLOC))
        (bp + malloc_asize n - TYPE_SIZE) (PACK (malloc_asize n) ALLOC))
        (bp + malloc_asize n) (PACK (SIZE (GET s'.mem bp) - malloc_asize n) FREE))
        (bp + malloc_asize n + (SIZE (GET s'.mem bp) - malloc_asize n) - TYPE_SIZE)
        (PACK (SIZE (GET s'.mem bp) - malloc_asize n) FREE) with hM
    clear_value M
    have hMbp : GET M bp = PACK (malloc_asize n) ALLOC := by
      rw [hM, GET_PUT_ne _ _ _ _ (by omega), GET_PUT_ne _ _ _ _ (by omega),
        GET_PUT_ne _ _ _ _ (by omega), GET_PUT_same, hpk]
    refine ⟨_, hr.symm, ?_⟩
    by_cases hpol : s'.freelist_policy = FreelistPolicy.fp_Explicit
    · rw [if_pos hpol]
      have hl8 : GET M (bp + TYPE_SIZE) = GET s'.mem (bp + TYPE_SIZE) := by
        rw [hM, GET_PUT_ne _ _ _ _ (by omega), GET_PUT_ne _ _ _ _ (by omega),
          GET_PUT_ne _ _ _ _ (by omega), GET_PUT_ne _ _ _ _ (by omega)]
      have hl16 : GET M (bp + 2 * TYPE_SIZE) = GET s'.mem (bp + 2 * TYPE_SIZE) := by
        rw [hM, GET_PUT_ne _ _ _ _ (by omega), GET_PUT_ne _ _ _ _ (by omega),
          GET_PUT_ne _ _ _ _ (by omega), GET_PUT_ne _ _ _ _ (by omega)]
      have hp4 : GET M (bp + 2 * TYPE_SIZE) ≠ NULL →
          bp ≠ GET M (bp + 2 * TYPE_SIZE) + TYPE_SIZE := by
        rw [hl16]
        intro hnz
        exact link_neq s' L' bp _ TYPE_SIZE
          ⟨hparse', hI2', hI3', hI4', hsent', hpos'⟩ hm
          (hlinkf (hflds.2.1.symm.trans hpol)).2 hnz (by decide) (by decide)
      have hn4 : GET M (bp + TYPE_SIZE) ≠ NULL →
          bp ≠ GET M (bp + TYPE_SIZE) + 2 * TYPE_SIZE := by
        rw [hl8]
        intro hnz
        exact link_neq s' L' bp _ (2 * TYPE_SIZE)
          ⟨hparse', hI2', hI3', hI4', hsent', hpos'⟩ hm
          (hlinkf (hflds.2.1.symm.trans hpol)).1 hnz (by decide) (by decide)
      rw [split_frame { s' with mem := M } bp bp (by omega) (by omega) hp4 hn4]
      exact hMbp
    · rw [if_neg hpol]
      exact hMbp
  · rw [if_neg hsplit] at hr
    have hbseq : SIZE (GET s'.mem bp) = malloc_asize n := by omega
    rw [if_neg (show ¬(SIZE (GET s'.mem bp) ≠ malloc_asize n) from fun hc => hc hbseq)] at hr
    rw [hbseq, hS1] at hr
    set M : Mem := PUT (PUT s'.mem bp (PACK (malloc_asize n) ALLOC))
        (bp + malloc_asize n - TYPE_SIZE) (PACK (malloc_asize n) ALLOC) with hM
    clear_value M
    have hMbp : GET M bp = PACK (malloc_asize n) ALLOC := by
      rw [hM, GET_PUT_ne _ _ _ _ (by omega), GET_PUT_same, hpk]
    refine ⟨_, hr.symm, ?_⟩
    by_cases hpol : s'.freelist_policy = FreelistPolicy.fp_Explicit
    · rw [if_pos hpol]
      have hl8 : GET M (bp + TYPE_SIZE) = GET s'.mem (bp + TYPE_SIZE) := by
        rw [hM, GET_PUT_ne _ _ _ _ (by omega), GET_PUT_ne _ _ _ _ (by omega)]
      have hl16 : GET M (bp + 2 * TYPE_SIZE) = GET s'.mem (bp + 2 * TYPE_SIZE) := by
        rw [hM, GET_PUT_ne _ _ _ _ (by omega), GET_PUT_ne _ _ _ _ (by omega)]
      have hp4 : GET M (bp + 2 * TYPE_SIZE) ≠ NULL →
          bp ≠ GET M (bp + 2 * TYPE_SIZE) + TYPE_SIZE := by
        rw [hl16]
        intro hnz
        exact link_neq s' L' bp _ TYPE_SIZE
          ⟨hparse', hI2', hI3', hI4', hsent', hpos'⟩ hm
          (hlinkf (hflds.2.1.symm.trans hpol)).2 hnz (by decide) (by decide)
      have hn4 : GET M (bp + TYPE_SIZE) ≠ NULL →
          bp ≠ GET M (bp + TYPE_SIZE) + 2 * TYPE_SIZE := by
        rw [hl8]
        intro hnz
        exact link_neq s' L' bp _ (2 * TYPE_SIZE)
          ⟨hparse', hI2', hI3', hI4', hsent', hpos'⟩ hm
          (hlinkf (hflds.2.1.symm.trans hpol)).1 hnz (by decide) (by decide)
      rw [free_from_free_list_frame { s' with mem := M } bp bp (by omega) (by omega) hp4 hn4]
      exact hMbp
    · rw [if_neg hpol]
      exact hMbp

end MemMgr
namespace MemMgr

/-- C6: whenever `mm_malloc n` (with `0 < n ≤ 2^64 - 48`, the non-wrapping
range) completes with a non-null pointer on an invariant heap with an
allocated prologue word and a 64-bit provider cap, the pointer is the
chosen block's header address plus 8 bytes, its offset from the heap
start is divisible by 8, the allocated block's recorded total size is
exactly `round_up_32 (n + 16) = malloc_asize n` (at least 32), and the
payload in front of the footer holds at least `n` bytes. -/
theorem C6_alloc_sizing (s : MM) (n : Nat) (L : List (Nat × Nat)) (p : Nat) (s3 : MM)
    (hInv : Inv s L)
    (hpro : STATUS (GET s.mem (s.heap_start - TYPE_SIZE)) = ALLOC)
    (hhs : TYPE_SIZE ≤ s.heap_start)
    (hbm : s.brk_max < WORD_MOD)
    (h0 : 0 < n) (hn : n ≤ WORD_MOD - 48)
    (hexp : s.freelist_policy = .fp_Explicit → ∃ C, chain s.mem s.exp_freelist_head C ∧
      (∀ a ∈ C, ∃ b ∈ L, b.1 = a ∧ STATUS b.2 = FREE) ∧ linksOk s.mem C)
    (hrun : mm_malloc s n = some (.ok (some p, s3))) :
    malloc_asize n = round_up_32 (n + 16) ∧ 32 ≤ malloc_asize n ∧
    ∃ bp, p = bp + TYPE_SIZE ∧ 8 ∣ (p - s.heap_start) ∧
      SIZE (GET s3.mem bp) = malloc_asize n ∧ STATUS (GET s3.mem bp) = ALLOC ∧
      n + 2 * TYPE_SIZE ≤ SIZE (GET s3.mem bp) := by
  have hA := malloc_asize_eq n h0 hn
  have hge32 : 32 ≤ malloc_asize n := malloc_asize_ge_BS n
  have hTS : TYPE_SIZE = 8 := rfl
  have h8a : 8 ∣ malloc_asize n := by
    have := malloc_asize_dvd32 n
    omega
  have haW : malloc_asize n < WORD_MOD := malloc_asize_lt n
  have hup := round_up_32_ge (n + 16)
  refine ⟨hA, hge32, ?_⟩
  cases hgf : get_free_block s (malloc_asize n) with
  | none =>
    exfalso
    simp only [mm_malloc] at hrun
    rw [if_neg (show ¬(n = 0) from by omega)] at hrun
    rw [show (if ALIGN n < BS then BS else ALIGN n) = malloc_asize n from rfl] at hrun
    rw [hgf] at hrun
    simp at hrun
  | some pr =>
    obtain ⟨rr, s'⟩ := pr
    cases rr with
    | none =>
      exfalso
      simp only [mm_malloc] at hrun
      rw [if_neg (show ¬(n = 0) from by omega)] at hrun
      rw [show (if ALIGN n < BS then BS else ALIGN n) = malloc_asize n from rfl] at hrun
      rw [hgf] at hrun
      simp at hrun
    | some bp =>
      obtain ⟨hfit, h32bs, hexact, hal8, s3', hok, hhdr⟩ :=
        malloc_after_search s n L bp s' _ hInv hpro hhs hbm h0 hexp hgf hrun
      simp only [Option.some.injEq, Except.ok.injEq, Prod.mk.injEq] at hok
      obtain ⟨hp1, hs31⟩ := hok
      refine ⟨bp, hp1, by omega, ?_, ?_, ?_⟩
      · rw [hs31, hhdr]
        exact SIZE_PACK _ _ h8a haW (by decide)
      · rw [hs31, hhdr]
        exact STATUS_PACK _ _ h8a (by decide)
      · rw [hs31, hhdr, SIZE_PACK _ _ h8a haW (by decide)]
        omega

/-- Witness for C6 on the explicit-policy heap `s_c1`: `mm_malloc 40`
takes the size-64 free block at 96 (an exact fit for
`round_up_32 (40 + 16) = 64`) and returns pointer 104. -/
theorem C6_alloc_sizing_witness :
    Inv s_c1 [(32, 32), (64, 33), (96, 64), (160, 65345)] ∧
    ∃ p s3, mm_malloc s_c1 40 = some (.ok (some p, s3)) ∧
      malloc_asize 40 = round_up_32 (40 + 16) ∧ 32 ≤ malloc_asize 40 ∧
      ∃ bp, p = bp + TYPE_SIZE ∧ 8 ∣ (p - s_c1.heap_start) ∧
        SIZE (GET s3.mem bp) = malloc_asize 40 ∧ STATUS (GET s3.mem bp) = ALLOC ∧
        40 + 2 * TYPE_SIZE ≤ SIZE (GET s3.mem bp) := by
  obtain ⟨p, s3, hps⟩ : ∃ p s3, mm_malloc s_c1 40 = some (.ok (some p, s3)) :=
    ⟨104, _, rfl⟩
  have h := C6_alloc_sizing s_c1 40 [(32, 32), (64, 33), (96, 64), (160, 65345)] p s3
    (by decide) (by decide) (by decide) (by decide) (by decide) (by decide)
    (fun _ => ⟨[96, 32], by decide, by decide, by decide⟩) hps
  exact ⟨by decide, p, s3, hps, h.1, h.2.1, h.2.2⟩

/-- C7: both the chosen block's size and the adjusted request are
multiples of 32, so when the block is not split — its size is less than
32 bytes above the request — the two are exactly equal; the `PANIC`
("Payload Alignment error") branch for a non-zero remainder below 32 is
unreachable (`mm_malloc` never returns that error), and the block is
marked allocated in place keeping its own size. -/
theorem C7_exact_fit_in_place (s : MM) (n : Nat) (L : List (Nat × Nat)) (bp : Nat) (s' : MM)
    (hInv : Inv s L)
    (hpro : STATUS (GET s.mem (s.heap_start - TYPE_SIZE)) = ALLOC)
    (hhs : TYPE_SIZE ≤ s.heap_start)
    (hbm : s.brk_max < WORD_MOD)
    (h0 : 0 < n)
    (hexp : s.freelist_policy = .fp_Explicit → ∃ C, chain s.mem s.exp_freelist_head C ∧
      (∀ a ∈ C, ∃ b ∈ L, b.1 = a ∧ STATUS b.2 = FREE) ∧ linksOk s.mem C)
    (hgf : get_free_block s (malloc_asize n) = some (some bp, s')) :
    32 ∣ SIZE (GET s'.mem bp) ∧ 32 ∣ malloc_asize n ∧
    (¬ (malloc_asize n + BS ≤ SIZE (GET s'.mem bp)) →
      SIZE (GET s'.mem bp) = malloc_asize n) ∧
    (∀ e, mm_malloc s n ≠ some (.error e)) ∧
    ∃ s3, mm_malloc s n = some (.ok (some (bp + TYPE_SIZE), s3)) ∧
      STATUS (GET s3.mem bp) = ALLOC ∧
      (¬ (malloc_asize n + BS ≤ SIZE (GET s'.mem bp)) →
        SIZE (GET s3.mem bp) = SIZE (GET s'.mem bp)) := by
  obtain ⟨hfit, h32bs, hexact, hal8, s3, hok, hhdr⟩ :=
    malloc_after_search s n L bp s' _ hInv hpro hhs hbm h0 hexp hgf rfl
  have h8a : 8 ∣ malloc_asize n := by
    have := malloc_asize_dvd32 n
    omega
  have haW : malloc_asize n < WORD_MOD := malloc_asize_lt n
  refine ⟨h32bs, malloc_asize_dvd32 n, hexact, ?_, s3, hok, ?_, ?_⟩
  · intro e heq
    rw [hok] at heq
    simp at heq
  · rw [hhdr]
    exact STATUS_PACK _ _ h8a (by decide)
  · intro hns
    rw [hhdr, SIZE_PACK _ _ h8a haW (by decide), hexact hns]

/-- Witness for C7 on the explicit-policy heap `s_c10`: for `n = 10`
(`malloc_asize 10 = 32`) the search returns the size-32 free block at 32,
the no-split condition holds, and the sizes agree exactly; `mm_malloc`
returns no error. -/
theorem C7_exact_fit_in_place_witness :
    Inv s_c10 [(32, 32), (64, 65441)] ∧
    get_free_block s_c10 (malloc_asize 10) = some (some 32, s_c10) ∧
    ¬ (malloc_asize 10 + BS ≤ SIZE (GET s_c10.mem 32)) ∧
    SIZE (GET s_c10.mem 32) = malloc_asize 10 ∧
    (∀ e, mm_malloc s_c10 10 ≠ some (.error e)) := by
  have h := C7_exact_fit_in_place s_c10 10 [(32, 32), (64, 65441)] 32 s_c10
    (by decide) (by decide) (by decide) (by decide) (by decide)
    (fun _ => ⟨[32], by decide, by decide, by decide⟩) rfl
  exact ⟨by decide, rfl, by decide, h.2.2.1 (by decide), h.2.2.2.1⟩

end MemMgr
